import Mathlib

set_option maxHeartbeats 1000000

/-!
Shallow embedding of the S2match core (`smatch/s2match.py`) of the
AMR_ArgumentSimilarity repository, together with a verification of the
frozen claims about it.

Modelling conventions:
* Python floats are modelled by `ℚ` (exact arithmetic in place of IEEE
  doubles; all claimed tolerances such as `1e-9` are subsumed by exact
  equality).
* Python dictionaries are modelled by association lists looked up from the
  front; inserting a fresh key conses or appends, updating rewrites the
  first matching entry.  Iteration over a dictionary only ever feeds a
  commutative sum here, so entry order is irrelevant to every value
  computed.
* The renamed node identifiers (`a0`, `a1`, …) are modelled by the integer
  that `int(name[len(prefix):])` parses, i.e. triples carry the node index
  directly.
* CPython set iteration over a dense set of small non-negative integers is
  in increasing order (small ints hash to themselves); candidate sets are
  therefore modelled as strictly sorted lists.
* The unseeded `random.seed()` RNG is modelled by an explicit stream of
  naturals consumed by the initialisation routines; quantifying over all
  streams quantifies over all possible sequences of random choices.
* String helpers (`.lower()`, `in`, `.split("-")`, `"-".join`) are
  modelled on `String.data` so that they evaluate by `decide`.
-/

namespace S2match

/-- A node pair `(i, j)`: node `i` of AMR 1 aligned with node `j` of AMR 2. -/
abbrev NodePair := ℤ × ℤ

/-- An instance or attribute triple `(rel, node, value)`; the node field holds
the integer index obtained by stripping the rename prefix. -/
structure STriple where
  rel : String
  node : ℤ
  val : String
deriving DecidableEq, Repr, Inhabited

/-- A relation triple `(rel, src, tgt)` with both node indices stripped. -/
structure RTriple where
  rel : String
  src : ℤ
  tgt : ℤ
deriving DecidableEq, Repr, Inhabited

/-- The inner dictionary of `weight_dict[(i,j)]`: key `-1` (always present once
the entry exists, modelled by the `self` field) plus node-pair keys. -/
structure InnerDict where
  self : ℚ
  rel : List (NodePair × ℚ)
deriving DecidableEq, Repr, Inhabited

/-- `weight_dict` as an association list. -/
abbrev WDict := List (NodePair × InnerDict)

/-- First-match association-list lookup (Python `d[k]` / `k in d`). -/
def alookup {α β : Type} [DecidableEq α] : List (α × β) → α → Option β
  | [], _ => none
  | (k, v) :: t, a => if k = a then some v else alookup t a

/-- Python `str.lower()` (ASCII case folding, character by character). -/
def lowerStr (s : String) : String := ⟨s.data.map Char.toLower⟩

/-- Python `c in s` for a single character. -/
def strContains (s : String) (c : Char) : Bool := s.data.contains c

/-- Truth value of `re.match(".*[0-9]+", s)`: the string contains a digit
anywhere. -/
def strHasDigit (s : String) : Bool := s.data.any Char.isDigit

/-- Python `s.split(c)` on the underlying character list. -/
def splitOnChar (c : Char) : List Char → List (List Char)
  | [] => [[]]
  | a :: t =>
    let r := splitOnChar c t
    if a = c then [] :: r
    else
      match r with
      | h :: t' => (a :: h) :: t'
      | [] => [[a]]

/-- Python `c.join(parts)` for a single-character separator. -/
def joinChar (c : Char) : List (List Char) → List Char
  | [] => []
  | [x] => x
  | x :: xs => x ++ c :: joinChar c xs

/-- `"-".join(x.split("-")[:-1])`: drop the final hyphen-segment. -/
def stripLastSeg (x : String) : String :=
  ⟨joinChar '-' ((splitOnChar '-' x.data).dropLast)⟩

/-- The `a_wo_sense` value computed by `maybe_sim`: the empty string models
Python's falsy `None`/`""` (both behave identically in every use site). -/
def woSense (x : String) : String :=
  if strContains x '-' && strHasDigit x then stripLastSeg x else ""

/-- Vector sum `np.sum(np.array(l), axis=0)` (embedding vectors share one
dimension; `zipWith` is exact on equal lengths). -/
def vecSum : List (List ℚ) → List ℚ
  | [] => []
  | h :: t => t.foldl (fun acc v => List.zipWith (· + ·) acc v) h

/-- `maybe_get_vec(word, vecs, mwp)`. -/
def maybe_get_vec (word : String) (vecs : List (String × List ℚ)) (mwp : String) :
    Option (List ℚ) :=
  match alookup vecs word with
  | some v => some v
  | none =>
    if strContains word '-' then
      if mwp = "split" then
        let l := (splitOnChar '-' word.data).filterMap
          (fun w => alookup vecs (⟨w⟩ : String))
        if l.isEmpty then none else some (vecSum l)
      else none
    else none

/-- `maybe_sim(a, b, vecs, cutoff, diffsense, simfun, mwp)`.  The similarity
function on vectors is kept as a parameter (the concrete `cosine_sim` etc.
involve irrational square roots; every claim constrains only its range). -/
def maybe_sim (a b : String) (vecs : List (String × List ℚ)) (cutoff diffsense : ℚ)
    (simfun : List ℚ → List ℚ → ℚ) (mwp : String) : ℚ :=
  if a = b then 1
  else
    let a_wo_sense := woSense a
    let b_wo_sense := woSense b
    if a_wo_sense ≠ "" ∧ b_wo_sense ≠ "" ∧ a_wo_sense = b_wo_sense then diffsense
    else if a_wo_sense ≠ "" ∧ a_wo_sense = b then diffsense
    else if b_wo_sense ≠ "" ∧ b_wo_sense = a then diffsense
    else
      let a_vec := if a_wo_sense ≠ "" then maybe_get_vec a_wo_sense vecs "None"
                   else maybe_get_vec a vecs mwp
      let b_vec := if b_wo_sense ≠ "" then maybe_get_vec b_wo_sense vecs "None"
                   else maybe_get_vec b vecs mwp
      match a_vec, b_vec with
      | none, _ => 0
      | some _, none => 0
      | some va, some vb =>
        let va := if strContains a '-' ∧ a_wo_sense ≠ "" then
            match maybe_get_vec (a_wo_sense ++ "s") vecs "None" with
            | some v => List.zipWith (· + ·) va v
            | none => va
          else va
        let vb := if strContains b '-' ∧ b_wo_sense ≠ "" then
            match maybe_get_vec (b_wo_sense ++ "s") vecs "None" with
            | some v => List.zipWith (· + ·) vb v
            | none => vb
          else vb
        let sim := simfun va vb
        if sim = 0 then 0
        else if sim > cutoff then
          if a_wo_sense ≠ "" ∨ b_wo_sense ≠ "" then sim * diffsense else sim
        else 0

/-- The similarity cache `sim_dict`, keyed by `a + "_" + b`. -/
abbrev SimDict := List (String × ℚ)

/-- `maybe_has_sim(a, b, sim_dict, ...)`.  NOTE: the source passes the literal
`mwp="split"` to `maybe_sim` and thereby ignores its own `mwp` argument; the
model reproduces that. -/
def maybe_has_sim (a b : String) (simd : SimDict) (vecs : List (String × List ℚ))
    (cutoff diffsense : ℚ) (simfun : List ℚ → List ℚ → ℚ) (mwp : String) :
    ℚ × SimDict :=
  match alookup simd (a ++ "_" ++ b) with
  | some v => (v, simd)
  | none =>
    match alookup simd (b ++ "_" ++ a) with
    | some v => (v, simd)
    | none =>
      let s := maybe_sim a b vecs cutoff diffsense simfun "split"
      (s, (b ++ "_" ++ a, s) :: (a ++ "_" ++ b, s) :: simd)

/-- Increment the count of key `p` in an inner relation dictionary
(`if p in d: d[p] += k else: d[p] = k`). -/
def relAdd (l : List (NodePair × ℚ)) (p : NodePair) (k : ℚ) : List (NodePair × ℚ) :=
  match l with
  | [] => [(p, k)]
  | (q, v) :: t => if q = p then (q, v + k) :: t else (q, v) :: relAdd t p k

/-- Add `s` to `weight_dict[p][-1]`, creating the entry (`{-1: s}`) if absent. -/
def addSelf (W : WDict) (p : NodePair) (s : ℚ) : WDict :=
  match W with
  | [] => [(p, ⟨s, []⟩)]
  | (q, e) :: t =>
    if q = p then (q, { e with self := e.self + s }) :: t
    else (q, e) :: addSelf t p s

/-- Add `1` to `weight_dict[p][q]`, creating the entry (`{-1: 0, q: 1}`) if
`p` is absent. -/
def addRel (W : WDict) (p q : NodePair) : WDict :=
  match W with
  | [] => [(p, ⟨0, [(q, 1)]⟩)]
  | (r, e) :: t =>
    if r = p then (r, { e with rel := relAdd e.rel q 1 }) :: t
    else (r, e) :: addRel t p q

/-- Insert into a strictly sorted list without duplication (`set.add` for the
dense small-integer sets used as candidate pools). -/
def insertSorted (j : ℤ) : List ℤ → List ℤ
  | [] => [j]
  | a :: t => if j < a then j :: a :: t else if j = a then a :: t else a :: insertSorted j t

/-- `candidate_mapping[i].add(j)` (out-of-range `i` is unreachable on
well-formed input and leaves the pool unchanged). -/
def addCand : List (List ℤ) → ℤ → ℤ → List (List ℤ)
  | [], _, _ => []
  | l :: t, i, j => if i = 0 then insertSorted j l :: t else l :: addCand t (i - 1) j

/-- The mutable state of `compute_pool`: candidate lists, weight dictionary and
similarity cache. -/
structure PoolSt where
  cand : List (List ℤ)
  W : WDict
  simd : SimDict
deriving Repr

/-- The weighting multiplier applied to instance similarities
(`0.3333` is the literal from the source). -/
def weightApply (ws : String) (s : ℚ) : ℚ :=
  if ws = "concept" then s * 3
  else if ws = "structure" then s * (3333 / 10000 : ℚ)
  else s

/-- The pool-construction configuration: embedding table, cutoff, diffsense,
vector similarity function, multi-word strategy and weighting scheme. -/
structure PoolCfg where
  vecs : List (String × List ℚ)
  cutoff : ℚ
  diffsense : ℚ
  simfun : List ℚ → List ℚ → ℚ
  mwp : String
  ws : String

/-- One step of the instance×instance phase of `compute_pool`. -/
def instStep (cfg : PoolCfg) (t1 t2 : STriple) (st : PoolSt) : PoolSt :=
  if lowerStr t1.rel = lowerStr t2.rel then
    let value_1 := lowerStr t1.val
    let value_2 := lowerStr t2.val
    let r := maybe_has_sim value_1 value_2 st.simd cfg.vecs cfg.cutoff cfg.diffsense cfg.simfun cfg.mwp
    let similarity := weightApply cfg.ws r.1
    { cand := addCand st.cand t1.node t2.node
      W := addSelf st.W (t1.node, t2.node) similarity
      simd := r.2 }
  else st

/-- Inner loop (over AMR-2 instances) of the instance phase. -/
def instLoop2 (cfg : PoolCfg) (t1 : STriple) : List STriple → PoolSt → PoolSt
  | [], st => st
  | t2 :: rest, st => instLoop2 cfg t1 rest (instStep cfg t1 t2 st)

/-- Outer loop (over AMR-1 instances) of the instance phase. -/
def instLoop1 (cfg : PoolCfg) (inst2 : List STriple) : List STriple → PoolSt → PoolSt
  | [], st => st
  | t1 :: rest, st => instLoop1 cfg inst2 rest (instLoop2 cfg t1 inst2 st)

/-- One step of the attribute×attribute phase of `compute_pool`. -/
def attrStep (cfg : PoolCfg) (t1 t2 : STriple) (st : PoolSt) : PoolSt :=
  if lowerStr t1.rel = lowerStr t2.rel ∧ lowerStr t1.val = lowerStr t2.val then
    { st with cand := addCand st.cand t1.node t2.node
              W := addSelf st.W (t1.node, t2.node) 1 }
  else if lowerStr t1.rel = lowerStr t2.rel ∧ lowerStr t1.rel = "top" then
    let r := maybe_has_sim (lowerStr t1.val) (lowerStr t2.val) st.simd cfg.vecs cfg.cutoff cfg.diffsense cfg.simfun cfg.mwp
    { cand := addCand st.cand t1.node t2.node
      W := addSelf st.W (t1.node, t2.node) r.1
      simd := r.2 }
  else st

/-- Inner loop of the attribute phase. -/
def attrLoop2 (cfg : PoolCfg) (t1 : STriple) : List STriple → PoolSt → PoolSt
  | [], st => st
  | t2 :: rest, st => attrLoop2 cfg t1 rest (attrStep cfg t1 t2 st)

/-- Outer loop of the attribute phase. -/
def attrLoop1 (cfg : PoolCfg) (attr2 : List STriple) : List STriple → PoolSt → PoolSt
  | [], st => st
  | t1 :: rest, st => attrLoop1 cfg attr2 rest (attrLoop2 cfg t1 attr2 st)

/-- One step of the relation×relation phase of `compute_pool`. -/
def relStep (t1 t2 : RTriple) (st : PoolSt) : PoolSt :=
  if lowerStr t1.rel = lowerStr t2.rel then
    let cand' := addCand (addCand st.cand t1.src t2.src) t1.tgt t2.tgt
    let node_pair1 : NodePair := (t1.src, t2.src)
    let node_pair2 : NodePair := (t1.tgt, t2.tgt)
    if node_pair2 ≠ node_pair1 then
      let pq : NodePair × NodePair :=
        if t1.src > t1.tgt then (node_pair2, node_pair1) else (node_pair1, node_pair2)
      { st with cand := cand', W := addRel (addRel st.W pq.1 pq.2) pq.2 pq.1 }
    else
      { st with cand := cand', W := addSelf st.W node_pair1 1 }
  else st

/-- Inner loop of the relation phase. -/
def relLoop2 (t1 : RTriple) : List RTriple → PoolSt → PoolSt
  | [], st => st
  | t2 :: rest, st => relLoop2 t1 rest (relStep t1 t2 st)

/-- Outer loop of the relation phase. -/
def relLoop1 (rel2 : List RTriple) : List RTriple → PoolSt → PoolSt
  | [], st => st
  | t1 :: rest, st => relLoop1 rel2 rest (relLoop2 t1 rel2 st)

/-- `compute_pool(instance1, attribute1, relation1, instance2, attribute2,
relation2, ...)`: candidate lists and weight dictionary. -/
def compute_pool (cfg : PoolCfg) (inst1 attr1 : List STriple) (rel1 : List RTriple)
    (inst2 attr2 : List STriple) (rel2 : List RTriple) :
    List (List ℤ) × WDict :=
  let st0 : PoolSt := ⟨List.replicate inst1.length [], [], []⟩
  let st1 := instLoop1 cfg inst2 inst1 st0
  let st2 := attrLoop1 cfg attr2 attr1 st1
  let st3 := relLoop1 rel2 rel1 st2
  (st3.cand, st3.W)

/-! ## Match evaluator, incremental gains, hill-climbing -/

/-- The memo table `match_triple_dict`, keyed by `tuple(mapping)`. -/
abbrev Memo := List (List ℤ × ℚ)

/-- Python `mapping[k]` for an inner dictionary key coordinate.  Well-formed
weight dictionaries only carry keys in `[0, len(mapping))`; the default `-2`
can never equal a stored (non-negative) second coordinate. -/
def mapGet (mapping : List ℤ) (k : ℤ) : ℤ := mapping.getD k.toNat (-2)

/-- The inner-dictionary scan of `compute_match` for the entry of the node
pair at position `i`: skip keys with first coordinate `< i`, add counts whose
node pair is active in `mapping`. -/
def relScan (mapping : List ℤ) (i : ℕ) : List (NodePair × ℚ) → ℚ
  | [] => 0
  | (k, v) :: rest =>
    (if k.1 < (i : ℤ) then 0 else if mapGet mapping k.1 = k.2 then v else 0)
      + relScan mapping i rest

/-- The contribution of position `i` (mapped to `m`) in `compute_match`. -/
def pairScore (W : WDict) (mapping : List ℤ) (i : ℕ) (m : ℤ) : ℚ :=
  if m = -1 then 0
  else
    match alookup W ((i : ℤ), m) with
    | none => 0
    | some e => e.self + relScan mapping i e.rel

/-- The body of `compute_match` (the value computed when the memo misses). -/
def matchValueAux (W : WDict) (mapping : List ℤ) : List ℤ → ℕ → ℚ
  | [], _ => 0
  | m :: rest, i => pairScore W mapping i m + matchValueAux W mapping rest (i + 1)

/-- The from-scratch score of a mapping. -/
def matchValue (mapping : List ℤ) (W : WDict) : ℚ := matchValueAux W mapping mapping 0

/-- `compute_match(mapping, weight_dict)` with the memo table threaded
explicitly. -/
def compute_match (mapping : List ℤ) (W : WDict) (memo : Memo) : ℚ × Memo :=
  match alookup memo mapping with
  | some v => (v, memo)
  | none =>
    let v := matchValue mapping W
    (v, (mapping, v) :: memo)

/-- The unskipped inner-dictionary scan used by `move_gain` and by the first
pair scans of `swap_gain`: self score plus all counts active in `mp`. -/
def gainScan (W : WDict) (p : NodePair) (mp : List ℤ) : ℚ :=
  match alookup W p with
  | none => 0
  | some e =>
    e.self + (e.rel.foldr (fun kv acc =>
      (if mapGet mp kv.1.1 = kv.1.2 then kv.2 else 0) + acc) 0)

/-- The scan of the second pair in `swap_gain`: additionally skip inner keys
whose first coordinate equals `skip` (= the `node_id1` argument). -/
def gainScanSkip (W : WDict) (p : NodePair) (mp : List ℤ) (skip : ℤ) : ℚ :=
  match alookup W p with
  | none => 0
  | some e =>
    e.self + (e.rel.foldr (fun kv acc =>
      (if kv.1.1 = skip then 0
       else if mapGet mp kv.1.1 = kv.1.2 then kv.2 else 0) + acc) 0)

/-- `move_gain(mapping, node_id, old_id, new_id, weight_dict, match_num)`,
returning the gain and the updated memo. -/
def move_gain (mapping : List ℤ) (node_id : ℕ) (old_id new_id : ℤ)
    (W : WDict) (match_num : ℚ) (memo : Memo) : ℚ × Memo :=
  let new_mapping_list := mapping.set node_id new_id
  match alookup memo new_mapping_list with
  | some v => (v - match_num, memo)
  | none =>
    let gain := gainScan W ((node_id : ℤ), new_id) new_mapping_list
      - gainScan W ((node_id : ℤ), old_id) mapping
    (gain, (new_mapping_list, match_num + gain) :: memo)

/-- `swap_gain(mapping, node_id1, mapping_id1, node_id2, mapping_id2,
weight_dict, match_num)`.  The source normalises the four pairs when
`node_id1 > node_id2` but keeps skipping on the raw `node_id1`; the model
reproduces this verbatim. -/
def swap_gain (mapping : List ℤ) (node_id1 : ℕ) (mapping_id1 : ℤ)
    (node_id2 : ℕ) (mapping_id2 : ℤ) (W : WDict) (match_num : ℚ) (memo : Memo) :
    ℚ × Memo :=
  let new_mapping_list := (mapping.set node_id1 mapping_id2).set node_id2 mapping_id1
  match alookup memo new_mapping_list with
  | some v => (v - match_num, memo)
  | none =>
    let pairs : NodePair × NodePair × NodePair × NodePair :=
      if node_id1 > node_id2 then
        (((node_id2 : ℤ), mapping_id1), ((node_id1 : ℤ), mapping_id2),
         ((node_id2 : ℤ), mapping_id2), ((node_id1 : ℤ), mapping_id1))
      else
        (((node_id1 : ℤ), mapping_id2), ((node_id2 : ℤ), mapping_id1),
         ((node_id1 : ℤ), mapping_id1), ((node_id2 : ℤ), mapping_id2))
    let new_mapping1 := pairs.1
    let new_mapping2 := pairs.2.1
    let old_mapping1 := pairs.2.2.1
    let old_mapping2 := pairs.2.2.2
    let gain := gainScan W new_mapping1 new_mapping_list
      + gainScanSkip W new_mapping2 new_mapping_list (node_id1 : ℤ)
      - gainScan W old_mapping1 mapping
      - gainScanSkip W old_mapping2 mapping (node_id1 : ℤ)
    (gain, (new_mapping_list, match_num + gain) :: memo)

/-- The unmatched AMR-2 nodes (`set(range(instance_len))` minus the values of
the mapping), in increasing order. -/
def unmatchedList (instance_len : ℕ) (mapping : List ℤ) : List ℤ :=
  ((List.range instance_len).map (fun n => (n : ℤ))).filter
    (fun j => decide (j ∉ mapping))

/-- Search state of `get_best_gain`: largest gain so far, chosen neighbour
(`node1`, `node2`, `use_swap`), and the memo. -/
structure GainSt where
  largest : ℚ
  best : Option (ℕ × ℤ × Bool)
  memo : Memo

/-- One MOVE candidate inside `get_best_gain`. -/
def moveStep (cand : List (List ℤ)) (W : WDict) (mapping : List ℤ) (mn : ℚ)
    (i : ℕ) (nid : ℤ) (nm : ℤ) (st : GainSt) : GainSt :=
  if nm ∈ cand.getD i [] then
    let r := move_gain mapping i nid nm W mn st.memo
    if r.1 > st.largest then ⟨r.1, some (i, nm, false), r.2⟩
    else ⟨st.largest, st.best, r.2⟩
  else st

/-- Inner loop over the unmatched nodes for one mapping position. -/
def moveLoop2 (cand : List (List ℤ)) (W : WDict) (mapping : List ℤ) (mn : ℚ)
    (i : ℕ) (nid : ℤ) : List ℤ → GainSt → GainSt
  | [], st => st
  | nm :: rest, st =>
    moveLoop2 cand W mapping mn i nid rest (moveStep cand W mapping mn i nid nm st)

/-- Outer loop over `enumerate(mapping)` for the MOVE neighbours. -/
def moveLoop1 (cand : List (List ℤ)) (W : WDict) (mapping : List ℤ) (mn : ℚ)
    (um : List ℤ) : List ℤ → ℕ → GainSt → GainSt
  | [], _, st => st
  | nid :: rest, i, st =>
    moveLoop1 cand W mapping mn um rest (i + 1) (moveLoop2 cand W mapping mn i nid um st)

/-- One SWAP candidate inside `get_best_gain`. -/
def swapStep (W : WDict) (mapping : List ℤ) (mn : ℚ) (i j : ℕ) (st : GainSt) : GainSt :=
  let r := swap_gain mapping i (mapping.getD i (-1)) j (mapping.getD j (-1)) W mn st.memo
  if r.1 > st.largest then ⟨r.1, some (i, (j : ℤ), true), r.2⟩
  else ⟨st.largest, st.best, r.2⟩

/-- Inner loop over `j = i+1 .. len-1` for the SWAP neighbours. -/
def swapLoop2 (W : WDict) (mapping : List ℤ) (mn : ℚ) (i : ℕ) : List ℕ → GainSt → GainSt
  | [], st => st
  | j :: rest, st => swapLoop2 W mapping mn i rest (swapStep W mapping mn i j st)

/-- Outer loop over `i` for the SWAP neighbours. -/
def swapLoop1 (W : WDict) (mapping : List ℤ) (mn : ℚ) : List ℕ → GainSt → GainSt
  | [], st => st
  | i :: rest, st =>
    swapLoop1 W mapping mn rest
      (swapLoop2 W mapping mn i (((List.range mapping.length).filter (i < ·))) st)

/-- Apply the chosen neighbour to the mapping (the tail of `get_best_gain`). -/
def applyBest (mapping : List ℤ) (best : Option (ℕ × ℤ × Bool)) : List ℤ :=
  match best with
  | none => mapping
  | some (n1, n2, useSwap) =>
    if useSwap then
      let t := mapping.getD n1 (-1)
      (mapping.set n1 (mapping.getD n2.toNat (-1))).set n2.toNat t
    else mapping.set n1 n2

/-- `get_best_gain(mapping, candidate_mappings, weight_dict, instance_len,
cur_match_num)`: the largest gain, the neighbouring mapping realising it (or
the unchanged mapping) and the updated memo. -/
def get_best_gain (mapping : List ℤ) (cand : List (List ℤ)) (W : WDict)
    (instance_len : ℕ) (cur_match_num : ℚ) (memo : Memo) : ℚ × List ℤ × Memo :=
  let um := unmatchedList instance_len mapping
  let st0 : GainSt := ⟨0, none, memo⟩
  let st1 := moveLoop1 cand W mapping cur_match_num um mapping 0 st0
  let st2 := swapLoop1 W mapping cur_match_num (List.range mapping.length) st1
  (st2.largest, applyBest mapping st2.best, st2.memo)

/-- The hill-climbing threshold `0.0000000001` from `get_best_match`. -/
def epsGain : ℚ := 1 / 10000000000

/-- The `while True` hill-climbing loop of `get_best_match`, with explicit
fuel (the Python loop terminates because every accepted step strictly
increases the score over a finite search space; all claims hold for every
fuel). -/
def climb (cand : List (List ℤ)) (W : WDict) (instance_len : ℕ) :
    ℕ → List ℤ → ℚ → Memo → List ℤ × ℚ × Memo
  | 0, mapping, match_num, memo => (mapping, match_num, memo)
  | fuel + 1, mapping, match_num, memo =>
    let r := get_best_gain mapping cand W instance_len match_num memo
    if r.1 ≤ epsGain then (mapping, match_num, r.2.2)
    else climb cand W instance_len fuel r.2.1 (match_num + r.1) r.2.2

/-! ## Initialisations and the driver -/

/-- Draw one value from the random stream (`random.randint(0, n-1)` is the
head modulo `n`; an exhausted stream repeats `0`).  Quantifying over all
streams covers every possible sequence of random draws. -/
def nextNat (rng : List ℕ) : ℕ × List ℕ := (rng.headD 0, rng.tail)

/-- The `while len(candidates) > 0` loop shared by the random fill of
`smart_init_mapping` and by `random_init_mapping`: repeatedly draw a random
index; pop already-matched candidates, otherwise pick.  Called with
`fuel = candidates.length` (each non-picking iteration pops one element). -/
def randPick : ℕ → List ℕ → List ℤ → List ℤ → Option ℤ × List ℕ
  | 0, rng, _, _ => (none, rng)
  | f + 1, rng, cands, used =>
    if cands.isEmpty then (none, rng)
    else
      let r := nextNat rng
      let rid := r.1 % cands.length
      let c := cands.getD rid 0
      if c ∈ used then randPick f r.2 (cands.eraseIdx rid) used
      else (some c, r.2)

/-- First pass of `smart_init_mapping`: scan each node's candidates for the
first unmatched candidate whose AMR-2 concept equals the node's concept. -/
def findCand (inst2 : List STriple) (value1 : String) (used : List ℤ) :
    List ℤ → Option ℤ
  | [] => none
  | j :: rest =>
    if (inst2.getD j.toNat default).val = value1 ∧ j ∉ used then some j
    else findCand inst2 value1 used rest

/-- The first pass of `smart_init_mapping`, returning the partial mapping, the
set of used AMR-2 nodes and the list of positions with no concept match. -/
def smartPass1 (inst1 inst2 : List STriple) :
    List (List ℤ) → ℕ → List ℤ → List ℤ × List ℤ × List ℕ
  | [], _, used => ([], used, [])
  | cands :: rest, i, used =>
    if cands.isEmpty then
      let r := smartPass1 inst1 inst2 rest (i + 1) used
      (-1 :: r.1, r.2.1, r.2.2)
    else
      match findCand inst2 ((inst1.getD i default).val) used cands with
      | some j =>
        let r := smartPass1 inst1 inst2 rest (i + 1) (j :: used)
        (j :: r.1, r.2.1, r.2.2)
      | none =>
        let r := smartPass1 inst1 inst2 rest (i + 1) used
        (-1 :: r.1, r.2.1, i :: r.2.2)

/-- Second pass of `smart_init_mapping`: randomly fill the positions without
a concept match. -/
def smartPass2 (cand : List (List ℤ)) :
    List ℕ → List ℤ → List ℤ → List ℕ → List ℤ
  | [], result, _, _ => result
  | i :: rest, result, used, rng =>
    let cands := cand.getD i []
    let r := randPick cands.length rng cands used
    match r.1 with
    | some c => smartPass2 cand rest (result.set i c) (c :: used) r.2
    | none => smartPass2 cand rest result used r.2

/-- `smart_init_mapping(candidate_mapping, instance1, instance2)`. -/
def smart_init_mapping (rng : List ℕ) (cand : List (List ℤ))
    (inst1 inst2 : List STriple) : List ℤ :=
  let p1 := smartPass1 inst1 inst2 cand 0 []
  smartPass2 cand p1.2.2 p1.1 p1.2.1 rng

/-- `random_init_mapping(candidate_mapping)`. -/
def random_init_mapping (rng : List ℕ) : List (List ℤ) → List ℤ → List ℤ
  | [], _ => []
  | c :: rest, used =>
    if c.isEmpty then -1 :: random_init_mapping rng rest used
    else
      let r := randPick c.length rng c used
      match r.1 with
      | some j => j :: random_init_mapping r.2 rest (j :: used)
      | none => -1 :: random_init_mapping r.2 rest used

/-- One restart of `get_best_match`: score the initial mapping, hill-climb,
and keep the better of the climbed score and the best so far. -/
def restartStep (cand : List (List ℤ)) (W : WDict) (n2 : ℕ) (fuel : ℕ)
    (st : (List ℤ × ℚ) × Memo) (init : List ℤ) : (List ℤ × ℚ) × Memo :=
  let c0 := compute_match init W st.2
  let c1 := climb cand W n2 fuel init c0.1 c0.2
  if c1.2.1 > st.1.2 then ((c1.1, c1.2.1), c1.2.2) else (st.1, c1.2.2)

/-- `get_best_match(...)`.  The `assert weighting_scheme in [...]` is modelled
by the `Except` error; the per-restart random streams model the unseeded RNG
(`rngs.length` plays the role of the restart count `r`; iteration 0 uses the
smart initialisation).  The memo starts empty: the driver clears
`match_triple_dict` between pairs. -/
def get_best_match (cfg : PoolCfg) (inst1 attr1 : List STriple) (rel1 : List RTriple)
    (inst2 attr2 : List STriple) (rel2 : List RTriple)
    (rngSmart : List ℕ) (rngs : List (List ℕ)) (fuel : ℕ) :
    Except String (List ℤ × ℚ) :=
  if cfg.ws ∉ (["concept", "structure", "standard"] : List String) then
    Except.error "AssertionError: weighting_scheme"
  else
    let pool := compute_pool cfg inst1 attr1 rel1 inst2 attr2 rel2
    let cand := pool.1
    let W := pool.2
    let inits := smart_init_mapping rngSmart cand inst1 inst2
      :: rngs.map (fun rng => random_init_mapping rng cand [])
    let r := inits.foldl (restartStep cand W inst2.length fuel)
      ((List.replicate inst1.length (-1), 0), ([] : Memo))
    Except.ok r.1

/-- `compute_f(match_num, test_num, gold_num)`:
`(precision, recall, f_score)`. -/
def compute_f (match_num test_num gold_num : ℚ) : ℚ × ℚ × ℚ :=
  if test_num = 0 ∨ gold_num = 0 then (0, 0, 0)
  else
    let precision := match_num / test_num
    let recallv := match_num / gold_num
    if precision + recallv ≠ 0 then
      (precision, recallv, 2 * precision * recallv / (precision + recallv))
    else (precision, recallv, 0)

/-- The three vector similarity functions selectable by name.  Their numeric
definitions involve square roots and exponentials and are irrelevant to every
claim; the tag records which one `get_sim_fun` selects. -/
inductive SimFunTag
  | cosine
  | euclidean
  | cityblock
deriving DecidableEq, Repr

/-- `get_sim_fun(string)`: Python falls off the end and returns `None` for any
other name, modelled by `none`. -/
def get_sim_fun (s : String) : Option SimFunTag :=
  if s = "cosine" then some SimFunTag.cosine
  else if s = "euclidean" then some SimFunTag.euclidean
  else if s = "cityblock" then some SimFunTag.cityblock
  else none

/-- What `main` does with the configuration before entering the pair loop:
it resolves the similarity function with `get_sim_fun` and performs no
validation whatsoever (no membership check, no exception).  The weighting
scheme is only ever checked by the `assert` inside `get_best_match` /
`compute_pool`, i.e. per comparison. -/
def mainSimfunSetup (similarityfunction : String) : Option SimFunTag :=
  get_sim_fun similarityfunction

/-! ## Observers, specification-side definitions and well-formedness -/

/-- The self score stored under key `-1` of `W[p]` (`0` if `p` is absent). -/
def selfD (W : WDict) (p : NodePair) : ℚ :=
  ((alookup W p).map InnerDict.self).getD 0

/-- The relation count stored in `W[p]` under the inner key `q`. -/
def relLookup (W : WDict) (p q : NodePair) : Option ℚ :=
  match alookup W p with
  | none => none
  | some e => alookup e.rel q

/-- The relation count as a number (`0` when absent). -/
def relD (W : WDict) (p q : NodePair) : ℚ := (relLookup W p q).getD 0

/-- `M[i]` with `-1` (unmapped) for out-of-range positions. -/
def mapGetD (M : List ℤ) (i : ℕ) : ℤ := M.getD i (-1)

/-- The specification formula for the score of a mapping: the self score of
every mapped pair plus, for every unordered pair of mapped nodes (counted
once, via `i < j`), the relation count between the two active pairs. -/
def specMatch (M : List ℤ) (W : WDict) : ℚ :=
  (∑ i in Finset.range M.length,
    if mapGetD M i ≠ -1 then selfD W ((i : ℤ), mapGetD M i) else 0)
  + ∑ i in Finset.range M.length, ∑ j in Finset.range M.length,
      if i < j ∧ mapGetD M i ≠ -1 ∧ mapGetD M j ≠ -1 then
        relD W ((i : ℤ), mapGetD M i) ((j : ℤ), mapGetD M j)
      else 0

/-- Specification-side sense predicate (the claim's reading): the label ends
in a hyphen followed by a run of one or more digits. -/
def spec_sensed (x : String) : Bool :=
  let parts := splitOnChar '-' x.data
  decide (2 ≤ parts.length) && !(parts.getLastD []).isEmpty
    && (parts.getLastD []).all Char.isDigit

/-- A memo table is consistent when every stored value is the from-scratch
score of its key. -/
def MemoOK (W : WDict) (memo : Memo) : Prop :=
  ∀ m v, alookup memo m = some v → v = specMatch m W

/-- Structural well-formedness of a weight dictionary produced by
`compute_pool` on triples whose node indices are non-negative: the relation
entries are symmetric, no entry records an interaction with itself, all keys
are pairs of non-negative node indices, and inner keys are unduplicated. -/
structure WF (W : WDict) : Prop where
  sym : ∀ p q, relLookup W p q = relLookup W q p
  noself : ∀ p, relLookup W p p = none
  outer : ∀ p e, alookup W p = some e → 0 ≤ p.1 ∧ 0 ≤ p.2
  inner : ∀ p e, alookup W p = some e → ∀ kv ∈ e.rel, 0 ≤ kv.1.1 ∧ 0 ≤ kv.1.2
  nodupInner : ∀ p e, alookup W p = some e → (e.rel.map Prod.fst).Nodup

/-! ## Helper instances and lemmas -/

instance instDecidableEqExcept {ε α : Type} [DecidableEq ε] [DecidableEq α] :
    DecidableEq (Except ε α) := fun x y =>
  match x, y with
  | .error a, .error b => decidable_of_iff (a = b) (by simp)
  | .ok a, .ok b => decidable_of_iff (a = b) (by simp)
  | .error _, .ok _ => isFalse (by simp)
  | .ok _, .error _ => isFalse (by simp)

lemma maybe_get_vec_nil (w : String) (mwp : String) : maybe_get_vec w [] mwp = none := by
  simp only [maybe_get_vec, alookup]
  split_ifs <;> simp_all [List.filterMap_eq_nil_iff, alookup]

/-! ## The claims -/

/-- C10: for every `match_num ≥ 0` and triple counts, `compute_f` returns
`(0, 0, 0)` when `test_num = 0` or `gold_num = 0`; otherwise it returns
`p = match_num/test_num`, `r = match_num/gold_num` and `F = 2pr/(p+r)` when
`p + r ≠ 0`, and `F = 0` when `p + r = 0`. -/
theorem C10_compute_f (match_num test_num gold_num : ℚ) (hm : 0 ≤ match_num) :
    ((test_num = 0 ∨ gold_num = 0) → compute_f match_num test_num gold_num = (0, 0, 0)) ∧
    (test_num ≠ 0 → gold_num ≠ 0 →
      compute_f match_num test_num gold_num =
        (match_num / test_num, match_num / gold_num,
          if match_num / test_num + match_num / gold_num ≠ 0 then
            2 * (match_num / test_num) * (match_num / gold_num) /
              (match_num / test_num + match_num / gold_num)
          else 0)) := by
  constructor
  · intro h0
    simp only [compute_f, if_pos h0]
  · intro h1 h2
    simp only [compute_f, if_neg (by push_neg; exact ⟨h1, h2⟩ : ¬(test_num = 0 ∨ gold_num = 0))]
    split_ifs with h <;> simp [h]

/-- Witness for C10 at `(3, 0, 5)` and `(3, 4, 4)`. -/
theorem C10_witness :
    compute_f 3 0 5 = (0, 0, 0) ∧
    compute_f 3 4 4 =
      ((3 : ℚ) / 4, (3 : ℚ) / 4,
        if (3 : ℚ) / 4 + 3 / 4 ≠ 0 then 2 * ((3 : ℚ) / 4) * (3 / 4) / ((3 : ℚ) / 4 + 3 / 4)
        else 0) :=
  ⟨(C10_compute_f 3 0 5 (by norm_num)).1 (Or.inl rfl),
   (C10_compute_f 3 4 4 (by norm_num)).2 (by norm_num) (by norm_num)⟩

/-- C9 counterexample: with the unsupported similarity name `"tanimoto"` the
setup stage of `main` simply yields no function (no error is raised), and a
comparison is still computed in full — here a one-node pair whose labels match
by string identity, so the missing similarity function is never consulted
(the result is identical under two arbitrary stand-in functions).  The claim
that an unsupported similarity name makes the program "raise an error before
computing any comparison" is therefore false. -/
theorem C9_counterexample :
    mainSimfunSetup "tanimoto" = none ∧
    get_best_match ⟨[], 1/2, 1/2, fun _ _ => 0, "split", "standard"⟩
        [⟨"instance", 0, "a"⟩] [] [] [⟨"instance", 0, "a"⟩] [] [] [] [] 3
      = Except.ok ([0], 1) ∧
    get_best_match ⟨[], 1/2, 1/2, fun _ _ => 1, "split", "standard"⟩
        [⟨"instance", 0, "a"⟩] [] [] [⟨"instance", 0, "a"⟩] [] [] [] [] 3
      = Except.ok ([0], 1) := by
  refine ⟨rfl, ?_, ?_⟩ <;> with_unfolding_all decide

/-- C9 (amended): an unsupported weighting scheme is rejected by the assertion
at the top of `get_best_match` (before that comparison's pool is built); an
unsupported similarity-function name is not validated at all: `get_sim_fun`
returns `none` and the run proceeds, failing only if and when the missing
function is applied. -/
theorem C9_config_handling :
    (∀ s : String, s ∉ (["cosine", "euclidean", "cityblock"] : List String) →
      mainSimfunSetup s = none) ∧
    (get_sim_fun "cosine" = some SimFunTag.cosine ∧
      get_sim_fun "euclidean" = some SimFunTag.euclidean ∧
      get_sim_fun "cityblock" = some SimFunTag.cityblock) ∧
    (∀ (cfg : PoolCfg) inst1 attr1 rel1 inst2 attr2 rel2 rngSmart rngs fuel,
      cfg.ws ∉ (["concept", "structure", "standard"] : List String) →
      get_best_match cfg inst1 attr1 rel1 inst2 attr2 rel2 rngSmart rngs fuel
        = Except.error "AssertionError: weighting_scheme") := by
  refine ⟨?_, ⟨rfl, rfl, rfl⟩, ?_⟩
  · intro s hs
    simp only [List.mem_cons, List.mem_singleton, not_or] at hs
    simp [mainSimfunSetup, get_sim_fun, hs.1, hs.2.1, hs.2.2]
  · intro cfg inst1 attr1 rel1 inst2 attr2 rel2 rngSmart rngs fuel h
    simp only [get_best_match, if_pos h]

/-- Witness for C9 at the unknown similarity name `"tanimoto2"` and an unknown
weighting scheme `"weird"`. -/
theorem C9_witness :
    mainSimfunSetup "tanimoto2" = none ∧
    get_best_match ⟨[], 0, 0, fun _ _ => 0, "split", "weird"⟩ [] [] [] [] [] [] [] [] 0
      = Except.error "AssertionError: weighting_scheme" :=
  ⟨C9_config_handling.1 "tanimoto2" (by decide),
   C9_config_handling.2.2 ⟨[], 0, 0, fun _ _ => 0, "split", "weird"⟩ [] [] [] [] [] [] [] [] 0
     (by decide)⟩

/-- C5 counterexample: the label `"a1-b"` does not end in a hyphen followed by
digits (its final segment is `"b"`; the digit sits before the last hyphen), so
under the claim it is never treated as sensed, no sense rule may fire, and
with an empty vocabulary `maybe_sim "a1-b" "a1"` would have to be `0`.  The
code's test `"-" in a and re.match(".*[0-9]+", a)` nevertheless strips it to
`"a1"` and the one-sided sense rule returns `diffsense = 1/2 ≠ 0`. -/
theorem C5_counterexample :
    maybe_sim "a1-b" "a1" [] (1/2) (1/2) (fun _ _ => 0) "split" = 1/2 ∧
    spec_sensed "a1-b" = false ∧ ((1 : ℚ)/2 ≠ 0) := by
  refine ⟨?_, by decide, by norm_num⟩
  with_unfolding_all decide

/-- C5 (amended): `maybe_sim` treats a label as sensed exactly when it
contains a hyphen, contains at least one digit **anywhere**, and the part
before its last hyphen is nonempty; stripping removes the entire final
hyphen-segment (digits or not).  For labels so treated the sense rules fire:
equal stripped forms give `diffsense`; a stripped form equal to the other
operand gives `diffsense` (both the left-operand branch and the
right-operand branch); and when the guards fall through to the vector
comparison with an operand treated as sensed, a nonzero above-cutoff vector
similarity is multiplied by `diffsense`.  When neither operand is treated as
sensed and the vocabulary is empty the result is `0`. -/
theorem C5_sense_rules :
    (∀ x : String, (woSense x ≠ "") ↔
      (strContains x '-' ∧ strHasDigit x ∧ stripLastSeg x ≠ "")) ∧
    (∀ a b vecs cutoff diffsense simfun mwp, a ≠ b →
      woSense a ≠ "" → woSense b ≠ "" → woSense a = woSense b →
      maybe_sim a b vecs cutoff diffsense simfun mwp = diffsense) ∧
    (∀ a b vecs cutoff diffsense simfun mwp, a ≠ b →
      woSense a ≠ "" → woSense a = b → ¬(woSense b ≠ "" ∧ woSense a = woSense b) →
      maybe_sim a b vecs cutoff diffsense simfun mwp = diffsense) ∧
    (∀ a b vecs cutoff diffsense simfun mwp, a ≠ b →
      woSense b ≠ "" → woSense b = a →
      ¬(woSense a ≠ "" ∧ woSense a = woSense b) →
      ¬(woSense a ≠ "" ∧ woSense a = b) →
      maybe_sim a b vecs cutoff diffsense simfun mwp = diffsense) ∧
    (∀ a b vecs cutoff diffsense simfun mwp va vb, a ≠ b →
      ¬(woSense a ≠ "" ∧ woSense b ≠ "" ∧ woSense a = woSense b) →
      ¬(woSense a ≠ "" ∧ woSense a = b) →
      ¬(woSense b ≠ "" ∧ woSense b = a) →
      (woSense a ≠ "" ∨ woSense b ≠ "") →
      (if woSense a ≠ "" then maybe_get_vec (woSense a) vecs "None"
       else maybe_get_vec a vecs mwp) = some va →
      (if woSense b ≠ "" then maybe_get_vec (woSense b) vecs "None"
       else maybe_get_vec b vecs mwp) = some vb →
      maybe_get_vec (woSense a ++ "s") vecs "None" = none →
      maybe_get_vec (woSense b ++ "s") vecs "None" = none →
      simfun va vb ≠ 0 → simfun va vb > cutoff →
      maybe_sim a b vecs cutoff diffsense simfun mwp = simfun va vb * diffsense) ∧
    (∀ a b cutoff diffsense simfun mwp, a ≠ b →
      woSense a = "" → woSense b = "" →
      maybe_sim a b [] cutoff diffsense simfun mwp = 0) := by
  refine ⟨?_, ?_, ?_, ?_, ?_, ?_⟩
  · intro x
    unfold woSense
    split_ifs with h <;> simp only [Bool.and_eq_true] at h
    · simp [h.1, h.2]
    · constructor
      · intro hx; exact absurd rfl hx
      · rintro ⟨h1, h2, -⟩
        tauto
  · intro a b vecs cutoff diffsense simfun mwp hab h1 h2 h3
    unfold maybe_sim
    rw [if_neg hab, if_pos ⟨h1, h2, h3⟩]
  · intro a b vecs cutoff diffsense simfun mwp hab h1 h2 h3
    unfold maybe_sim
    rw [if_neg hab, if_neg (fun hc => h3 ⟨hc.2.1, hc.2.2⟩), if_pos ⟨h1, h2⟩]
  · intro a b vecs cutoff diffsense simfun mwp hab hb hba h3 h4
    unfold maybe_sim
    rw [if_neg hab, if_neg (fun hc => h3 ⟨hc.1, hc.2.2⟩), if_neg h4,
      if_pos ⟨hb, hba⟩]
  · intro a b vecs cutoff diffsense simfun mwp va vb hab hg3 hg4 hg5 hsens
      hva hvb hma hmb hs0 hsc
    unfold maybe_sim
    rw [if_neg hab, if_neg hg3, if_neg hg4, if_neg hg5, hva, hvb]
    simp only []
    rw [hma, hmb]
    simp only [ite_self]
    rw [if_neg hs0, if_pos hsc, if_pos hsens]
  · intro a b cutoff diffsense simfun mwp hab h1 h2
    unfold maybe_sim
    rw [if_neg hab]
    rw [if_neg (by simp [h1]), if_neg (by simp [h1]), if_neg (by simp [h2])]
    simp only [h1, h2, if_neg (by simp : ¬("" : String) ≠ "")]
    rw [maybe_get_vec_nil]

/-- Witness for C5 at `hit-01` / `hit-02` (equal stripped forms), `hit-01` /
`hit` (left stripped form equals the other label), `hit` / `hit-01` (right
stripped form equals the other label), `hit-01` / `punch` with `hit` and
`punch` in vocabulary (the vector similarity `3/4` above the cutoff `1/2` is
multiplied by `diffsense = 1/3`), and `foo` / `bar` with an empty vocabulary
(vector fallback `0`). -/
theorem C5_witness :
    maybe_sim "hit-01" "hit-02" [] (1/2) (1/3) (fun _ _ => 0) "split" = 1/3 ∧
    maybe_sim "hit-01" "hit" [] (1/2) (1/3) (fun _ _ => 0) "split" = 1/3 ∧
    maybe_sim "hit" "hit-01" [] (1/2) (1/3) (fun _ _ => 0) "split" = 1/3 ∧
    maybe_sim "hit-01" "punch" [("hit", [1]), ("punch", [1])] (1/2) (1/3)
      (fun _ _ => 3/4) "split" = 3/4 * (1/3) ∧
    maybe_sim "foo" "bar" [] (1/2) (1/3) (fun _ _ => 0) "split" = 0 :=
  ⟨C5_sense_rules.2.1 "hit-01" "hit-02" [] (1/2) (1/3) (fun _ _ => 0) "split"
      (by decide) (by decide) (by decide) (by decide),
   C5_sense_rules.2.2.1 "hit-01" "hit" [] (1/2) (1/3) (fun _ _ => 0) "split"
      (by decide) (by decide) (by decide) (by decide),
   C5_sense_rules.2.2.2.1 "hit" "hit-01" [] (1/2) (1/3) (fun _ _ => 0) "split"
      (by decide) (by decide) (by decide) (by decide) (by decide),
   C5_sense_rules.2.2.2.2.1 "hit-01" "punch" [("hit", [1]), ("punch", [1])]
      (1/2) (1/3) (fun _ _ => 3/4) "split" [1] [1]
      (by decide) (by decide) (by decide) (by decide) (by decide)
      (by with_unfolding_all decide) (by with_unfolding_all decide)
      (by with_unfolding_all decide) (by with_unfolding_all decide)
      (by norm_num) (by norm_num),
   C5_sense_rules.2.2.2.2.2 "foo" "bar" (1/2) (1/3) (fun _ _ => 0) "split"
      (by decide) (by decide) (by decide)⟩

/-- C6: the claim is right and the code is wrong.  `maybe_has_sim` receives
the configured multi-token strategy `mwp` but calls `maybe_sim` with the
hard-coded literal `"split"`, so with strategy `"None"` the pool construction
still splits out-of-vocabulary hyphenated labels: on `"foo-bar"` vs `"foo"`
with `foo, bar` in vocabulary the wrapper returns the split-based similarity
`3/4` while `maybe_sim` itself, given `"None"` as documented, returns `0`. -/
theorem C6_mwp_ignored :
    (maybe_has_sim "foo-bar" "foo" [] [("foo", [1]), ("bar", [1])] (1/2) (1/2)
        (fun _ _ => 3/4) "None").1 = 3/4 ∧
    maybe_sim "foo-bar" "foo" [("foo", [1]), ("bar", [1])] (1/2) (1/2)
        (fun _ _ => 3/4) "None" = 0 := by
  constructor <;> with_unfolding_all decide

/-! ## Equations for the dictionary operations -/

lemma alookup_relAdd (l : List (NodePair × ℚ)) (p : NodePair) (k : ℚ) (q : NodePair) :
    alookup (relAdd l p k) q =
      if q = p then some ((alookup l p).getD 0 + k) else alookup l q := by
  induction l with
  | nil =>
    simp only [relAdd, alookup]
    by_cases h : q = p
    · subst h; simp [alookup]
    · have h' : ¬ p = q := fun hh => h hh.symm
      simp [h, h', alookup]
  | cons a t ih =>
    obtain ⟨r, v⟩ := a
    simp only [relAdd, alookup]
    by_cases h1 : r = p
    · subst h1
      simp only [if_pos rfl, alookup]
      by_cases h2 : q = r
      · subst h2; simp [alookup]
      · have h2' : ¬ r = q := fun hh => h2 hh.symm
        simp [alookup, h2, h2']
    · simp only [if_neg h1, alookup, ih]
      by_cases h2 : q = p
      · subst h2
        have h1' : ¬ r = q := fun hh => h1 hh
        simp [h1', h1]
      · simp [h2]

lemma alookup_addSelf (W : WDict) (p : NodePair) (s : ℚ) (q : NodePair) :
    alookup (addSelf W p s) q =
      if q = p then
        some (match alookup W p with
              | some e => { e with self := e.self + s }
              | none => (⟨s, []⟩ : InnerDict))
      else alookup W q := by
  induction W with
  | nil =>
    simp only [addSelf, alookup]
    by_cases h : q = p
    · subst h; simp
    · have h' : ¬ p = q := fun hh => h hh.symm
      simp [h, h']
  | cons a t ih =>
    obtain ⟨r, e⟩ := a
    simp only [addSelf, alookup]
    by_cases h1 : r = p
    · subst h1
      simp only [if_pos rfl, alookup]
      by_cases h2 : q = r
      · subst h2; simp
      · have h2' : ¬ r = q := fun hh => h2 hh.symm
        simp [h2, h2']
    · simp only [if_neg h1, alookup, ih]
      by_cases h2 : q = p
      · subst h2
        have h1' : ¬ r = q := fun hh => h1 hh
        simp [h1, h1']
      · simp [h2]

lemma alookup_addRel (W : WDict) (p q : NodePair) (r : NodePair) :
    alookup (addRel W p q) r =
      if r = p then
        some (match alookup W p with
              | some e => { e with rel := relAdd e.rel q 1 }
              | none => (⟨0, [(q, 1)]⟩ : InnerDict))
      else alookup W r := by
  induction W with
  | nil =>
    simp only [addRel, alookup]
    by_cases h : r = p
    · subst h; simp
    · have h' : ¬ p = r := fun hh => h hh.symm
      simp [h, h']
  | cons a t ih =>
    obtain ⟨u, e⟩ := a
    simp only [addRel, alookup]
    by_cases h1 : u = p
    · subst h1
      simp only [if_pos rfl, alookup]
      by_cases h2 : r = u
      · subst h2; simp
      · have h2' : ¬ u = r := fun hh => h2 hh.symm
        simp [h2, h2']
    · simp only [if_neg h1, alookup, ih]
      by_cases h2 : r = p
      · subst h2
        have h1' : ¬ u = r := fun hh => h1 hh
        simp [h1, h1']
      · simp [h2]

lemma selfD_addSelf (W : WDict) (p : NodePair) (s : ℚ) (q : NodePair) :
    selfD (addSelf W p s) q = if q = p then selfD W p + s else selfD W q := by
  simp only [selfD, alookup_addSelf]
  by_cases h : q = p
  · subst h
    cases hW : alookup W q <;> simp [hW]
  · simp [h]

lemma relLookup_addSelf (W : WDict) (p : NodePair) (s : ℚ) (a b : NodePair) :
    relLookup (addSelf W p s) a b = relLookup W a b := by
  simp only [relLookup, alookup_addSelf]
  by_cases h : a = p
  · subst h
    cases hW : alookup W a <;> simp [hW, alookup]
  · simp [h]

lemma selfD_addRel (W : WDict) (p q : NodePair) (r : NodePair) :
    selfD (addRel W p q) r = selfD W r := by
  simp only [selfD, alookup_addRel]
  by_cases h : r = p
  · subst h
    cases hW : alookup W r <;> simp [hW]
  · simp [h]

lemma relLookup_addRel (W : WDict) (p q : NodePair) (a b : NodePair) :
    relLookup (addRel W p q) a b =
      if a = p ∧ b = q then some (relD W p q + 1) else relLookup W a b := by
  simp only [relLookup, relD, alookup_addRel]
  by_cases h : a = p
  · subst h
    cases hW : alookup W a with
    | none =>
      simp only [hW, if_pos rfl]
      by_cases h2 : b = q
      · subst h2; simp [alookup]
      · have h2' : ¬ q = b := fun hh => h2 hh.symm
        simp [alookup, h2, h2']
    | some e =>
      simp only [hW, if_pos rfl]
      by_cases h2 : b = q
      · subst h2
        simp [alookup_relAdd]
      · simp [alookup_relAdd, h2]
  · have h' : ¬ (a = p ∧ b = q) := fun hh => h hh.1
    simp [h, h']

/-! ## Candidate-list lemmas -/

lemma mem_insertSorted {x j : ℤ} {l : List ℤ} :
    x ∈ insertSorted j l ↔ x = j ∨ x ∈ l := by
  induction l with
  | nil => simp [insertSorted]
  | cons a t ih =>
    unfold insertSorted
    split_ifs with h1 h2
    · simp [List.mem_cons]
    · subst h2
      simp [List.mem_cons]
    · simp only [List.mem_cons, ih]
      constructor
      · rintro (hx | hx | hx) <;> tauto
      · rintro (hx | hx | hx) <;> tauto

lemma length_addCand (C : List (List ℤ)) (i j : ℤ) :
    (addCand C i j).length = C.length := by
  induction C generalizing i with
  | nil => rfl
  | cons l t ih =>
    unfold addCand
    split_ifs <;> simp [ih]

lemma addCand_getD_mem (C : List (List ℤ)) (i j : ℤ) (k : ℕ) (x : ℤ)
    (h : x ∈ C.getD k []) : x ∈ (addCand C i j).getD k [] := by
  induction C generalizing i k with
  | nil => simp at h
  | cons l t ih =>
    unfold addCand
    split_ifs with h1
    · cases k with
      | zero => simp_all [mem_insertSorted]
      | succ k => simp_all
    · cases k with
      | zero => simp_all
      | succ k =>
        simp only [List.getD_cons_succ] at h ⊢
        exact ih (i - 1) k h

lemma addCand_getD_self (C : List (List ℤ)) (i j : ℤ) (h0 : 0 ≤ i)
    (hlt : i.toNat < C.length) : j ∈ (addCand C i j).getD i.toNat [] := by
  induction C generalizing i with
  | nil => simp at hlt
  | cons l t ih =>
    unfold addCand
    split_ifs with h1
    · subst h1
      simp [mem_insertSorted]
    · have hpos : 0 < i := lt_of_le_of_ne h0 (fun hh => h1 hh.symm)
      have htn : i.toNat = (i - 1).toNat + 1 := by omega
      rw [htn]
      simp only [List.getD_cons_succ]
      exact ih (i - 1) (by omega) (by simp at hlt; omega)

/-! ## Pool-phase invariance machinery -/

/-- The facts about one candidate/weight pair tracked through the pool
construction: the candidate is listed and the weight entry exists. -/
def PairIn (p : NodePair) (st : PoolSt) : Prop :=
  p.2 ∈ st.cand.getD p.1.toNat [] ∧ (alookup st.W p).isSome = true

lemma PairIn_addSelf {p : NodePair} {st : PoolSt} (h : PairIn p st)
    (i j : ℤ) (q : NodePair) (s : ℚ) :
    PairIn p ⟨addCand st.cand i j, addSelf st.W q s, st.simd⟩ := by
  refine ⟨addCand_getD_mem _ _ _ _ _ h.1, ?_⟩
  rw [alookup_addSelf]
  split_ifs with hq
  · simp
  · exact h.2

lemma isSome_addRel {W : WDict} {r : NodePair} (h : (alookup W r).isSome = true)
    (p q : NodePair) : (alookup (addRel W p q) r).isSome = true := by
  rw [alookup_addRel]
  split_ifs with hq
  · simp
  · exact h

lemma PairIn_instStep {p : NodePair} {st : PoolSt} (h : PairIn p st)
    (cfg : PoolCfg) (t1 t2 : STriple) : PairIn p (instStep cfg t1 t2 st) := by
  unfold instStep
  split_ifs
  · exact PairIn_addSelf h _ _ _ _
  · exact h

lemma PairIn_attrStep {p : NodePair} {st : PoolSt} (h : PairIn p st)
    (cfg : PoolCfg) (t1 t2 : STriple) : PairIn p (attrStep cfg t1 t2 st) := by
  unfold attrStep
  split_ifs
  · exact PairIn_addSelf h _ _ _ _
  · exact PairIn_addSelf h _ _ _ _
  · exact h

lemma PairIn_relStep {p : NodePair} {st : PoolSt} (h : PairIn p st)
    (t1 t2 : RTriple) : PairIn p (relStep t1 t2 st) := by
  have hW : ∀ q r : NodePair, (alookup (addRel (addRel st.W q r) r q) p).isSome = true :=
    fun q r => isSome_addRel (isSome_addRel h.2 _ _) _ _
  have hC : p.2 ∈ (addCand (addCand st.cand t1.src t2.src) t1.tgt t2.tgt).getD p.1.toNat [] :=
    addCand_getD_mem _ _ _ _ _ (addCand_getD_mem _ _ _ _ _ h.1)
  unfold relStep
  by_cases hrel : lowerStr t1.rel = lowerStr t2.rel
  · rw [if_pos hrel]
    by_cases hne : ((t1.tgt, t2.tgt) : NodePair) ≠ (t1.src, t2.src)
    · rw [if_pos hne]
      exact ⟨hC, hW _ _⟩
    · rw [if_neg hne]
      refine ⟨hC, ?_⟩
      rw [alookup_addSelf]
      split_ifs with hq
      · simp
      · exact h.2
  · rw [if_neg hrel]
    exact h

lemma PairIn_instLoop2 {p : NodePair} {st : PoolSt} (h : PairIn p st)
    (cfg : PoolCfg) (t1 : STriple) (l : List STriple) :
    PairIn p (instLoop2 cfg t1 l st) := by
  induction l generalizing st with
  | nil => exact h
  | cons t2 rest ih => exact ih (PairIn_instStep h cfg t1 t2)

lemma PairIn_instLoop1 {p : NodePair} {st : PoolSt} (h : PairIn p st)
    (cfg : PoolCfg) (inst2 : List STriple) (l : List STriple) :
    PairIn p (instLoop1 cfg inst2 l st) := by
  induction l generalizing st with
  | nil => exact h
  | cons t1 rest ih => exact ih (PairIn_instLoop2 h cfg t1 inst2)

lemma PairIn_attrLoop2 {p : NodePair} {st : PoolSt} (h : PairIn p st)
    (cfg : PoolCfg) (t1 : STriple) (l : List STriple) :
    PairIn p (attrLoop2 cfg t1 l st) := by
  induction l generalizing st with
  | nil => exact h
  | cons t2 rest ih => exact ih (PairIn_attrStep h cfg t1 t2)

lemma PairIn_attrLoop1 {p : NodePair} {st : PoolSt} (h : PairIn p st)
    (cfg : PoolCfg) (attr2 : List STriple) (l : List STriple) :
    PairIn p (attrLoop1 cfg attr2 l st) := by
  induction l generalizing st with
  | nil => exact h
  | cons t1 rest ih => exact ih (PairIn_attrLoop2 h cfg t1 attr2)

lemma PairIn_relLoop2 {p : NodePair} {st : PoolSt} (h : PairIn p st)
    (t1 : RTriple) (l : List RTriple) : PairIn p (relLoop2 t1 l st) := by
  induction l generalizing st with
  | nil => exact h
  | cons t2 rest ih => exact ih (PairIn_relStep h t1 t2)

lemma PairIn_relLoop1 {p : NodePair} {st : PoolSt} (h : PairIn p st)
    (rel2 : List RTriple) (l : List RTriple) : PairIn p (relLoop1 rel2 l st) := by
  induction l generalizing st with
  | nil => exact h
  | cons t1 rest ih => exact ih (PairIn_relLoop2 h t1 rel2)

lemma cand_length_instStep (cfg : PoolCfg) (t1 t2 : STriple) (st : PoolSt) :
    (instStep cfg t1 t2 st).cand.length = st.cand.length := by
  unfold instStep; split_ifs <;> simp [length_addCand]

lemma cand_length_instLoop2 (cfg : PoolCfg) (t1 : STriple) (l : List STriple)
    (st : PoolSt) : (instLoop2 cfg t1 l st).cand.length = st.cand.length := by
  induction l generalizing st with
  | nil => rfl
  | cons t2 rest ih => rw [instLoop2, ih, cand_length_instStep]

lemma cand_length_instLoop1 (cfg : PoolCfg) (inst2 : List STriple)
    (l : List STriple) (st : PoolSt) :
    (instLoop1 cfg inst2 l st).cand.length = st.cand.length := by
  induction l generalizing st with
  | nil => rfl
  | cons t1 rest ih => rw [instLoop1, ih, cand_length_instLoop2]

lemma PairIn_instStep_fires (cfg : PoolCfg) (t1 t2 : STriple) (st : PoolSt)
    (hrel : lowerStr t1.rel = lowerStr t2.rel) (h0 : 0 ≤ t1.node)
    (hlt : t1.node.toNat < st.cand.length) :
    PairIn (t1.node, t2.node) (instStep cfg t1 t2 st) := by
  unfold instStep
  rw [if_pos hrel]
  refine ⟨addCand_getD_self _ _ _ h0 hlt, ?_⟩
  rw [alookup_addSelf]
  simp

lemma PairIn_instLoop2_fires (cfg : PoolCfg) (t1 : STriple) (l : List STriple)
    (st : PoolSt) (t2 : STriple) (hmem : t2 ∈ l)
    (hrel : lowerStr t1.rel = lowerStr t2.rel) (h0 : 0 ≤ t1.node)
    (hlt : t1.node.toNat < st.cand.length) :
    PairIn (t1.node, t2.node) (instLoop2 cfg t1 l st) := by
  induction l generalizing st with
  | nil => cases hmem
  | cons hd rest ih =>
    rw [instLoop2]
    rcases List.mem_cons.mp hmem with hhd | htl
    · subst hhd
      exact PairIn_instLoop2 (PairIn_instStep_fires cfg t1 t2 st hrel h0 hlt) cfg t1 rest
    · exact ih _ htl (by rw [cand_length_instStep]; exact hlt)

lemma PairIn_instLoop1_fires (cfg : PoolCfg) (inst2 : List STriple)
    (l : List STriple) (st : PoolSt) (t1 t2 : STriple) (h1 : t1 ∈ l)
    (h2 : t2 ∈ inst2) (hrel : lowerStr t1.rel = lowerStr t2.rel)
    (h0 : 0 ≤ t1.node) (hlt : t1.node.toNat < st.cand.length) :
    PairIn (t1.node, t2.node) (instLoop1 cfg inst2 l st) := by
  induction l generalizing st with
  | nil => cases h1
  | cons hd rest ih =>
    rw [instLoop1]
    rcases List.mem_cons.mp h1 with hhd | htl
    · subst hhd
      exact PairIn_instLoop1 (PairIn_instLoop2_fires cfg t1 inst2 st t2 h2 hrel h0 hlt)
        cfg inst2 rest
    · exact ih _ htl (by rw [cand_length_instLoop2]; exact hlt)

/-- C4 counterexample: on the single-instance pair `foo` / `bar` with an empty
vocabulary the similarity is `0`, yet `compute_pool` adds node `0` to `C[0]`
and records a self score of `0`: the candidate set contains a node for which
no instance, attribute or relation can yield a positive contribution, and a
zero similarity is accumulated.  This falsifies the "only if `s > 0`"
invariant. -/
theorem C4_counterexample :
    (0 : ℤ) ∈ (compute_pool ⟨[], 1/2, 1/2, fun _ _ => 0, "split", "standard"⟩
        [⟨"instance", 0, "foo"⟩] [] [] [⟨"instance", 0, "bar"⟩] [] []).1.getD 0 [] ∧
    (compute_pool ⟨[], 1/2, 1/2, fun _ _ => 0, "split", "standard"⟩
        [⟨"instance", 0, "foo"⟩] [] [] [⟨"instance", 0, "bar"⟩] [] []).2
      = [((0, 0), ⟨0, []⟩)] := by
  constructor <;> with_unfolding_all decide

/-- C4 (amended): in the instance-by-instance phase `compute_pool` adds `j` to
`C[i]` and accumulates the weighted similarity into the self score of `(i, j)`
unconditionally, whenever the two instance relation names match
(case-insensitively) — irrespective of whether the similarity is positive.
Consequently candidate sets may contain nodes with zero potential gain. -/
theorem C4_candidates_unconditional (cfg : PoolCfg) (inst1 attr1 : List STriple)
    (rel1 : List RTriple) (inst2 attr2 : List STriple) (rel2 : List RTriple)
    (t1 t2 : STriple) (h1 : t1 ∈ inst1) (h2 : t2 ∈ inst2)
    (hrel : lowerStr t1.rel = lowerStr t2.rel) (h0 : 0 ≤ t1.node)
    (hlt : t1.node.toNat < inst1.length) :
    t2.node ∈ (compute_pool cfg inst1 attr1 rel1 inst2 attr2 rel2).1.getD t1.node.toNat []
    ∧ (alookup (compute_pool cfg inst1 attr1 rel1 inst2 attr2 rel2).2
        (t1.node, t2.node)).isSome = true := by
  have hst0 : (⟨List.replicate inst1.length [], [], []⟩ : PoolSt).cand.length = inst1.length := by
    simp
  have hP : PairIn (t1.node, t2.node)
      (instLoop1 cfg inst2 inst1 ⟨List.replicate inst1.length [], [], []⟩) :=
    PairIn_instLoop1_fires cfg inst2 inst1 _ t1 t2 h1 h2 hrel h0 (by rw [hst0]; exact hlt)
  have hP2 := PairIn_relLoop1 (PairIn_attrLoop1 hP cfg attr2 attr1) rel2 rel1
  exact hP2

/-- Witness for C4 on the `foo` / `bar` pool. -/
theorem C4_witness :
    (0 : ℤ) ∈ (compute_pool ⟨[], 1/2, 1/2, fun _ _ => 0, "split", "standard"⟩
        [⟨"instance", 0, "foo"⟩] [] [] [⟨"instance", 0, "bar"⟩] [] []).1.getD 0 [] ∧
    (alookup (compute_pool ⟨[], 1/2, 1/2, fun _ _ => 0, "split", "standard"⟩
        [⟨"instance", 0, "foo"⟩] [] [] [⟨"instance", 0, "bar"⟩] [] []).2
      ((0 : ℤ), (0 : ℤ))).isSome = true :=
  C4_candidates_unconditional ⟨[], 1/2, 1/2, fun _ _ => 0, "split", "standard"⟩
    [⟨"instance", 0, "foo"⟩] [] [] [⟨"instance", 0, "bar"⟩] [] []
    ⟨"instance", 0, "foo"⟩ ⟨"instance", 0, "bar"⟩ (by decide) (by decide)
    (by decide) (by decide) (by decide)

/-! ## Generic pool induction -/

/-- The final mutable state of `compute_pool`. -/
def poolState (cfg : PoolCfg) (inst1 attr1 : List STriple) (rel1 : List RTriple)
    (inst2 attr2 : List STriple) (rel2 : List RTriple) : PoolSt :=
  relLoop1 rel2 rel1 (attrLoop1 cfg attr2 attr1
    (instLoop1 cfg inst2 inst1 ⟨List.replicate inst1.length [], [], []⟩))

lemma compute_pool_eq (cfg : PoolCfg) (inst1 attr1 : List STriple) (rel1 : List RTriple)
    (inst2 attr2 : List STriple) (rel2 : List RTriple) :
    compute_pool cfg inst1 attr1 rel1 inst2 attr2 rel2 =
      ((poolState cfg inst1 attr1 rel1 inst2 attr2 rel2).cand,
       (poolState cfg inst1 attr1 rel1 inst2 attr2 rel2).W) := rfl

lemma instLoop2_ind (cfg : PoolCfg) (t1 : STriple) (P : PoolSt → Prop)
    (l : List STriple) (hstep : ∀ t2 ∈ l, ∀ st, P st → P (instStep cfg t1 t2 st)) :
    ∀ st, P st → P (instLoop2 cfg t1 l st) := by
  induction l with
  | nil => intro st h; exact h
  | cons t2 rest ih =>
    intro st h
    rw [instLoop2]
    exact ih (fun u hu s hs => hstep u (List.mem_cons_of_mem _ hu) s hs) _
      (hstep t2 (List.mem_cons_self _ _) st h)

lemma instLoop1_ind (cfg : PoolCfg) (inst2 : List STriple) (P : PoolSt → Prop)
    (l : List STriple)
    (hstep : ∀ t1 ∈ l, ∀ t2 ∈ inst2, ∀ st, P st → P (instStep cfg t1 t2 st)) :
    ∀ st, P st → P (instLoop1 cfg inst2 l st) := by
  induction l with
  | nil => intro st h; exact h
  | cons t1 rest ih =>
    intro st h
    rw [instLoop1]
    exact ih (fun u hu => hstep u (List.mem_cons_of_mem _ hu)) _
      (instLoop2_ind cfg t1 P inst2 (hstep t1 (List.mem_cons_self _ _)) st h)

lemma attrLoop2_ind (cfg : PoolCfg) (t1 : STriple) (P : PoolSt → Prop)
    (l : List STriple) (hstep : ∀ t2 ∈ l, ∀ st, P st → P (attrStep cfg t1 t2 st)) :
    ∀ st, P st → P (attrLoop2 cfg t1 l st) := by
  induction l with
  | nil => intro st h; exact h
  | cons t2 rest ih =>
    intro st h
    rw [attrLoop2]
    exact ih (fun u hu s hs => hstep u (List.mem_cons_of_mem _ hu) s hs) _
      (hstep t2 (List.mem_cons_self _ _) st h)

lemma attrLoop1_ind (cfg : PoolCfg) (attr2 : List STriple) (P : PoolSt → Prop)
    (l : List STriple)
    (hstep : ∀ t1 ∈ l, ∀ t2 ∈ attr2, ∀ st, P st → P (attrStep cfg t1 t2 st)) :
    ∀ st, P st → P (attrLoop1 cfg attr2 l st) := by
  induction l with
  | nil => intro st h; exact h
  | cons t1 rest ih =>
    intro st h
    rw [attrLoop1]
    exact ih (fun u hu => hstep u (List.mem_cons_of_mem _ hu)) _
      (attrLoop2_ind cfg t1 P attr2 (hstep t1 (List.mem_cons_self _ _)) st h)

lemma relLoop2_ind (t1 : RTriple) (P : PoolSt → Prop)
    (l : List RTriple) (hstep : ∀ t2 ∈ l, ∀ st, P st → P (relStep t1 t2 st)) :
    ∀ st, P st → P (relLoop2 t1 l st) := by
  induction l with
  | nil => intro st h; exact h
  | cons t2 rest ih =>
    intro st h
    rw [relLoop2]
    exact ih (fun u hu s hs => hstep u (List.mem_cons_of_mem _ hu) s hs) _
      (hstep t2 (List.mem_cons_self _ _) st h)

lemma relLoop1_ind (rel2 : List RTriple) (P : PoolSt → Prop)
    (l : List RTriple)
    (hstep : ∀ t1 ∈ l, ∀ t2 ∈ rel2, ∀ st, P st → P (relStep t1 t2 st)) :
    ∀ st, P st → P (relLoop1 rel2 l st) := by
  induction l with
  | nil => intro st h; exact h
  | cons t1 rest ih =>
    intro st h
    rw [relLoop1]
    exact ih (fun u hu => hstep u (List.mem_cons_of_mem _ hu)) _
      (relLoop2_ind t1 P rel2 (hstep t1 (List.mem_cons_self _ _)) st h)

lemma poolState_ind (cfg : PoolCfg) (inst1 attr1 : List STriple) (rel1 : List RTriple)
    (inst2 attr2 : List STriple) (rel2 : List RTriple) (P : PoolSt → Prop)
    (hinit : P ⟨List.replicate inst1.length [], [], []⟩)
    (hinst : ∀ t1 ∈ inst1, ∀ t2 ∈ inst2, ∀ st, P st → P (instStep cfg t1 t2 st))
    (hattr : ∀ t1 ∈ attr1, ∀ t2 ∈ attr2, ∀ st, P st → P (attrStep cfg t1 t2 st))
    (hrel : ∀ t1 ∈ rel1, ∀ t2 ∈ rel2, ∀ st, P st → P (relStep t1 t2 st)) :
    P (poolState cfg inst1 attr1 rel1 inst2 attr2 rel2) :=
  relLoop1_ind rel2 P rel1 hrel _
    (attrLoop1_ind cfg attr2 P attr1 hattr _
      (instLoop1_ind cfg inst2 P inst1 hinst _ hinit))

/-! ## Storage symmetry (C3) -/

/-- Full symmetry of the relation entries of a weight dictionary. -/
def SymRel (W : WDict) : Prop := ∀ p q, relLookup W p q = relLookup W q p

lemma SymRel_nil : SymRel [] := fun p q => rfl

lemma relD_comm {W : WDict} (h : SymRel W) (p q : NodePair) :
    relD W p q = relD W q p := by
  unfold relD
  rw [h]

lemma SymRel_addSelf {W : WDict} (h : SymRel W) (p : NodePair) (s : ℚ) :
    SymRel (addSelf W p s) := by
  intro a b
  rw [relLookup_addSelf, relLookup_addSelf, h]

lemma SymRel_addRelPair {W : WDict} (h : SymRel W) {p q : NodePair} (hpq : p ≠ q) :
    SymRel (addRel (addRel W p q) q p) := by
  intro a b
  have hqp : ¬ (q = p ∧ p = q) := fun hc => hpq hc.2
  have hW1 : relD (addRel W p q) q p = relD W q p := by
    unfold relD
    rw [relLookup_addRel, if_neg hqp]
  rw [relLookup_addRel, relLookup_addRel, relLookup_addRel, relLookup_addRel]
  by_cases h1 : a = q ∧ b = p
  · have hb : ¬ (b = q ∧ a = p) := fun hc => hpq (h1.2.symm.trans hc.1)
    rw [if_pos h1, if_neg hb, if_pos ⟨h1.2, h1.1⟩, hW1, relD_comm h q p]
  · by_cases h2 : a = p ∧ b = q
    · rw [if_neg h1, if_pos h2, if_pos ⟨h2.2, h2.1⟩, hW1, relD_comm h q p]
    · rw [if_neg h1, if_neg h2, if_neg (fun hc => h2 ⟨hc.2, hc.1⟩),
        if_neg (fun hc => h1 ⟨hc.2, hc.1⟩)]
      exact h a b

lemma SymRel_instStep {st : PoolSt} (h : SymRel st.W) (cfg : PoolCfg)
    (t1 t2 : STriple) : SymRel (instStep cfg t1 t2 st).W := by
  unfold instStep
  split_ifs
  · exact SymRel_addSelf h _ _
  · exact h

lemma SymRel_attrStep {st : PoolSt} (h : SymRel st.W) (cfg : PoolCfg)
    (t1 t2 : STriple) : SymRel (attrStep cfg t1 t2 st).W := by
  unfold attrStep
  split_ifs
  · exact SymRel_addSelf h _ _
  · exact SymRel_addSelf h _ _
  · exact h

lemma SymRel_relStep {st : PoolSt} (h : SymRel st.W) (t1 t2 : RTriple) :
    SymRel (relStep t1 t2 st).W := by
  unfold relStep
  by_cases hrel : lowerStr t1.rel = lowerStr t2.rel
  · rw [if_pos hrel]
    by_cases hne : ((t1.tgt, t2.tgt) : NodePair) ≠ (t1.src, t2.src)
    · rw [if_pos hne]
      by_cases hgt : t1.src > t1.tgt
      · simp only [if_pos hgt]
        exact SymRel_addRelPair h hne
      · simp only [if_neg hgt]
        exact SymRel_addRelPair h (fun hc => hne hc.symm)
    · rw [if_neg hne]
      exact SymRel_addSelf h _ _
  · rw [if_neg hrel]
    exact h

lemma SymRel_poolState (cfg : PoolCfg) (inst1 attr1 : List STriple)
    (rel1 : List RTriple) (inst2 attr2 : List STriple) (rel2 : List RTriple) :
    SymRel (poolState cfg inst1 attr1 rel1 inst2 attr2 rel2).W :=
  poolState_ind cfg inst1 attr1 rel1 inst2 attr2 rel2 (fun st => SymRel st.W)
    SymRel_nil
    (fun t1 _ t2 _ st hs => SymRel_instStep hs cfg t1 t2)
    (fun t1 _ t2 _ st hs => SymRel_attrStep hs cfg t1 t2)
    (fun t1 _ t2 _ st hs => SymRel_relStep hs t1 t2)

/-- C3: the weight dictionary built by `compute_pool` is symmetric in its
relation entries: for all node pairs, the inner entry of `(i', j')` under
`(i, j)` exists with count `k` if and only if the inner entry of `(i, j)`
under `(i', j')` exists with the same count `k`. -/
theorem C3_weight_symmetry (cfg : PoolCfg) (inst1 attr1 : List STriple)
    (rel1 : List RTriple) (inst2 attr2 : List STriple) (rel2 : List RTriple)
    (p q : NodePair) :
    relLookup (compute_pool cfg inst1 attr1 rel1 inst2 attr2 rel2).2 p q
      = relLookup (compute_pool cfg inst1 attr1 rel1 inst2 attr2 rel2).2 q p ∧
    (∀ k : ℚ,
      relLookup (compute_pool cfg inst1 attr1 rel1 inst2 attr2 rel2).2 p q = some k ↔
      relLookup (compute_pool cfg inst1 attr1 rel1 inst2 attr2 rel2).2 q p = some k) := by
  have h := SymRel_poolState cfg inst1 attr1 rel1 inst2 attr2 rel2 p q
  rw [compute_pool_eq]
  exact ⟨h, fun k => by rw [h]⟩

/-! ## Well-formedness of the pool's weight dictionary -/

lemma mem_relAdd {l : List (NodePair × ℚ)} {p : NodePair} {k : ℚ}
    {kv : NodePair × ℚ} (h : kv ∈ relAdd l p k) : kv.1 = p ∨ kv ∈ l := by
  induction l with
  | nil =>
    simp only [relAdd, List.mem_singleton] at h
    subst h; exact Or.inl rfl
  | cons a t ih =>
    obtain ⟨r, v⟩ := a
    unfold relAdd at h
    split_ifs at h with h1
    · rcases List.mem_cons.mp h with hh | hh
      · subst hh; subst h1; exact Or.inl rfl
      · exact Or.inr (List.mem_cons_of_mem _ hh)
    · rcases List.mem_cons.mp h with hh | hh
      · subst hh; exact Or.inr (List.mem_cons_self _ _)
      · rcases ih hh with hk | hk
        · exact Or.inl hk
        · exact Or.inr (List.mem_cons_of_mem _ hk)

lemma keys_relAdd (l : List (NodePair × ℚ)) (p : NodePair) (k : ℚ) :
    (relAdd l p k).map Prod.fst =
      if p ∈ l.map Prod.fst then l.map Prod.fst else l.map Prod.fst ++ [p] := by
  induction l with
  | nil => simp [relAdd]
  | cons a t ih =>
    obtain ⟨r, v⟩ := a
    unfold relAdd
    by_cases h1 : r = p
    · subst h1
      rw [if_pos rfl]
      have hmem : r ∈ (((r, v) :: t).map Prod.fst) := by simp
      rw [if_pos hmem]
      simp
    · rw [if_neg h1]
      by_cases h2 : p ∈ t.map Prod.fst
      · have hmem : p ∈ ((r, v) :: t).map Prod.fst := by simp [h2]
        rw [if_pos hmem]
        simp [ih, h2]
      · have hmem : p ∉ ((r, v) :: t).map Prod.fst := by
          simp only [List.map_cons, List.mem_cons]
          rintro (hh | hh)
          · exact h1 hh.symm
          · exact h2 hh
        rw [if_neg hmem]
        simp [ih, h2]

lemma nodup_keys_relAdd {l : List (NodePair × ℚ)} (hnd : (l.map Prod.fst).Nodup)
    (p : NodePair) (k : ℚ) : ((relAdd l p k).map Prod.fst).Nodup := by
  rw [keys_relAdd]
  split_ifs with h
  · exact hnd
  · simp [List.nodup_append, hnd, h]

lemma WF_nil : WF [] := by
  refine ⟨fun p q => rfl, fun p => rfl, ?_, ?_, ?_⟩ <;>
    (intro p e he; simp [alookup] at he)

lemma WF_addSelf {W : WDict} (h : WF W) {p : NodePair}
    (hp : 0 ≤ p.1 ∧ 0 ≤ p.2) (s : ℚ) : WF (addSelf W p s) := by
  refine ⟨SymRel_addSelf h.sym p s, ?_, ?_, ?_, ?_⟩
  · intro r
    rw [relLookup_addSelf]
    exact h.noself r
  · intro r e he
    rw [alookup_addSelf] at he
    split_ifs at he with hr
    · subst hr; exact hp
    · exact h.outer r e he
  · intro r e he kv hkv
    rw [alookup_addSelf] at he
    split_ifs at he with hr
    · cases hW : alookup W p with
      | none => rw [hW] at he; cases he; simp at hkv
      | some e0 =>
        rw [hW] at he; cases he
        exact h.inner p e0 hW kv hkv
    · exact h.inner r e he kv hkv
  · intro r e he
    rw [alookup_addSelf] at he
    split_ifs at he with hr
    · cases hW : alookup W p with
      | none => rw [hW] at he; cases he; simp
      | some e0 =>
        rw [hW] at he; cases he
        exact h.nodupInner p e0 hW
    · exact h.nodupInner r e he

lemma noself_addRel {W : WDict} (h : ∀ r, relLookup W r r = none)
    {p q : NodePair} (hpq : p ≠ q) (r : NodePair) :
    relLookup (addRel W p q) r r = none := by
  rw [relLookup_addRel, if_neg (fun hc => hpq (by rw [← hc.1, hc.2]))]
  exact h r

lemma outer_addRel {W : WDict}
    (h : ∀ r e, alookup W r = some e → 0 ≤ r.1 ∧ 0 ≤ r.2)
    {p : NodePair} (hp : 0 ≤ p.1 ∧ 0 ≤ p.2) (q : NodePair) :
    ∀ r e, alookup (addRel W p q) r = some e → 0 ≤ r.1 ∧ 0 ≤ r.2 := by
  intro r e he
  rw [alookup_addRel] at he
  split_ifs at he with hr
  · subst hr; exact hp
  · exact h r e he

lemma inner_addRel {W : WDict}
    (h : ∀ r e, alookup W r = some e → ∀ kv ∈ e.rel, 0 ≤ kv.1.1 ∧ 0 ≤ kv.1.2)
    {q : NodePair} (hq : 0 ≤ q.1 ∧ 0 ≤ q.2) (p : NodePair) :
    ∀ r e, alookup (addRel W p q) r = some e →
      ∀ kv ∈ e.rel, 0 ≤ kv.1.1 ∧ 0 ≤ kv.1.2 := by
  intro r e he kv hkv
  rw [alookup_addRel] at he
  split_ifs at he with hr
  · cases hW : alookup W p with
    | none =>
      rw [hW] at he; cases he
      simp only [List.mem_singleton] at hkv
      subst hkv; exact hq
    | some e0 =>
      rw [hW] at he; cases he
      rcases mem_relAdd hkv with hk | hk
      · rw [hk]; exact hq
      · exact h p e0 hW kv hk
  · exact h r e he kv hkv

lemma nodup_addRel {W : WDict}
    (h : ∀ r e, alookup W r = some e → (e.rel.map Prod.fst).Nodup)
    (p q : NodePair) :
    ∀ r e, alookup (addRel W p q) r = some e → (e.rel.map Prod.fst).Nodup := by
  intro r e he
  rw [alookup_addRel] at he
  split_ifs at he with hr
  · cases hW : alookup W p with
    | none => rw [hW] at he; cases he; simp
    | some e0 =>
      rw [hW] at he; cases he
      exact nodup_keys_relAdd (h p e0 hW) q 1
  · exact h r e he

lemma WF_addRelPair {W : WDict} (h : WF W) {p q : NodePair}
    (hp : 0 ≤ p.1 ∧ 0 ≤ p.2) (hq : 0 ≤ q.1 ∧ 0 ≤ q.2) (hpq : p ≠ q) :
    WF (addRel (addRel W p q) q p) :=
  ⟨SymRel_addRelPair h.sym hpq,
   noself_addRel (noself_addRel h.noself hpq) (Ne.symm hpq),
   outer_addRel (outer_addRel h.outer hp q) hq p,
   inner_addRel (inner_addRel h.inner hq p) hp q,
   nodup_addRel (nodup_addRel h.nodupInner p q) q p⟩

lemma WF_instStep {st : PoolSt} (h : WF st.W) (cfg : PoolCfg) {t1 t2 : STriple}
    (h1 : 0 ≤ t1.node) (h2 : 0 ≤ t2.node) : WF (instStep cfg t1 t2 st).W := by
  unfold instStep
  split_ifs
  · exact WF_addSelf h ⟨h1, h2⟩ _
  · exact h

lemma WF_attrStep {st : PoolSt} (h : WF st.W) (cfg : PoolCfg) {t1 t2 : STriple}
    (h1 : 0 ≤ t1.node) (h2 : 0 ≤ t2.node) : WF (attrStep cfg t1 t2 st).W := by
  unfold attrStep
  split_ifs
  · exact WF_addSelf h ⟨h1, h2⟩ _
  · exact WF_addSelf h ⟨h1, h2⟩ _
  · exact h

lemma WF_relStep {st : PoolSt} (h : WF st.W) {t1 t2 : RTriple}
    (h1 : 0 ≤ t1.src ∧ 0 ≤ t1.tgt) (h2 : 0 ≤ t2.src ∧ 0 ≤ t2.tgt) :
    WF (relStep t1 t2 st).W := by
  unfold relStep
  by_cases hrel : lowerStr t1.rel = lowerStr t2.rel
  · rw [if_pos hrel]
    by_cases hne : ((t1.tgt, t2.tgt) : NodePair) ≠ (t1.src, t2.src)
    · rw [if_pos hne]
      by_cases hgt : t1.src > t1.tgt
      · simp only [if_pos hgt]
        exact WF_addRelPair h ⟨h1.2, h2.2⟩ ⟨h1.1, h2.1⟩ hne
      · simp only [if_neg hgt]
        exact WF_addRelPair h ⟨h1.1, h2.1⟩ ⟨h1.2, h2.2⟩ (fun hc => hne hc.symm)
    · rw [if_neg hne]
      exact WF_addSelf h ⟨h1.1, h2.1⟩ _
  · rw [if_neg hrel]
    exact h

lemma WF_poolState (cfg : PoolCfg) (inst1 attr1 : List STriple)
    (rel1 : List RTriple) (inst2 attr2 : List STriple) (rel2 : List RTriple)
    (hb1 : ∀ t ∈ inst1, 0 ≤ t.node) (hb2 : ∀ t ∈ inst2, 0 ≤ t.node)
    (hb3 : ∀ t ∈ attr1, 0 ≤ t.node) (hb4 : ∀ t ∈ attr2, 0 ≤ t.node)
    (hb5 : ∀ t ∈ rel1, 0 ≤ t.src ∧ 0 ≤ t.tgt)
    (hb6 : ∀ t ∈ rel2, 0 ≤ t.src ∧ 0 ≤ t.tgt) :
    WF (poolState cfg inst1 attr1 rel1 inst2 attr2 rel2).W :=
  poolState_ind cfg inst1 attr1 rel1 inst2 attr2 rel2 (fun st => WF st.W)
    WF_nil
    (fun t1 ht1 t2 ht2 st hs => WF_instStep hs cfg (hb1 t1 ht1) (hb2 t2 ht2))
    (fun t1 ht1 t2 ht2 st hs => WF_attrStep hs cfg (hb3 t1 ht1) (hb4 t2 ht2))
    (fun t1 ht1 t2 ht2 st hs => WF_relStep hs (hb5 t1 ht1) (hb6 t2 ht2))

/-! ## From dictionary scans to indexed sums -/

lemma alookup_eq_none_of_not_mem {β : Type} {l : List (NodePair × β)} {p : NodePair}
    (h : p ∉ l.map Prod.fst) : alookup l p = none := by
  induction l with
  | nil => rfl
  | cons a t ih =>
    obtain ⟨k, v⟩ := a
    simp only [List.map_cons, List.mem_cons] at h
    push_neg at h
    simp only [alookup, if_neg (fun hh : k = p => h.1 hh.symm)]
    exact ih h.2

/-- The generic conversion of a dictionary scan (sum over present entries
whose key satisfies `C`) into a sum over indices `j < L`, when the satisfying
keys are exactly the `key j` with `Q j`. -/
lemma entryScan_eq_sum (L : ℕ) (key : ℕ → NodePair)
    (hkeyinj : ∀ a b : ℕ, key a = key b → a = b)
    (Q : ℕ → Prop) [DecidablePred Q]
    (C : NodePair → Prop) [DecidablePred C]
    (l : List (NodePair × ℚ)) (hnd : (l.map Prod.fst).Nodup)
    (hC : ∀ kv ∈ l, (C kv.1 ↔ ∃ j, j < L ∧ kv.1 = key j ∧ Q j)) :
    (l.foldr (fun kv acc => (if C kv.1 then kv.2 else 0) + acc) 0)
      = ∑ j in Finset.range L, if Q j then (alookup l (key j)).getD 0 else 0 := by
  induction l with
  | nil => simp [alookup]
  | cons a t ih =>
    obtain ⟨k, v⟩ := a
    simp only [List.map_cons, List.nodup_cons] at hnd
    have iht := ih hnd.2 (fun u hu => hC u (List.mem_cons_of_mem _ hu))
    simp only [List.foldr_cons]
    rw [iht]
    by_cases hc : C k
    · obtain ⟨j0, hj0L, hj0k, hj0Q⟩ := (hC (k, v) (List.mem_cons_self _ _)).mp hc
      rw [if_pos hc]
      have hpoint : ∀ j ∈ Finset.range L,
          (if Q j then (alookup ((k, v) :: t) (key j)).getD 0 else 0)
            = (if Q j then (alookup t (key j)).getD 0 else 0)
              + (if j = j0 then v else 0) := by
        intro j _
        by_cases hjj : j = j0
        · subst hjj
          have h1 : alookup ((k, v) :: t) (key j) = some v := by
            simp only [alookup, if_pos hj0k]
          have h2 : alookup t (key j) = none :=
            alookup_eq_none_of_not_mem (by rw [← hj0k]; exact hnd.1)
          rw [if_pos hj0Q, if_pos hj0Q, if_pos rfl, h1, h2]
          simp
        · rw [if_neg hjj]
          by_cases hq : Q j
          · rw [if_pos hq, if_pos hq]
            have heq : alookup ((k, v) :: t) (key j) = alookup t (key j) := by
              simp only [alookup]
              rw [if_neg (fun hh : k = key j =>
                hjj (hkeyinj _ _ (hh.symm.trans hj0k)))]
            rw [heq, add_zero]
          · rw [if_neg hq, if_neg hq, add_zero]
      rw [Finset.sum_congr rfl hpoint, Finset.sum_add_distrib]
      rw [Finset.sum_ite_eq' (Finset.range L) j0 (fun _ => v),
        if_pos (Finset.mem_range.mpr hj0L)]
      ring
    · rw [if_neg hc]
      have hpoint : ∀ j ∈ Finset.range L,
          (if Q j then (alookup ((k, v) :: t) (key j)).getD 0 else 0)
            = (if Q j then (alookup t (key j)).getD 0 else 0) := by
        intro j hj
        by_cases hq : Q j
        · rw [if_pos hq, if_pos hq]
          have heq : alookup ((k, v) :: t) (key j) = alookup t (key j) := by
            simp only [alookup]
            rw [if_neg (fun hh : k = key j =>
              hc ((hC (k, v) (List.mem_cons_self _ _)).mpr
                ⟨j, Finset.mem_range.mp hj, hh, hq⟩))]
          rw [heq]
        · rw [if_neg hq, if_neg hq]
      rw [Finset.sum_congr rfl hpoint]
      ring

lemma relScan_eq_foldr (M : List ℤ) (i : ℕ) (l : List (NodePair × ℚ)) :
    relScan M i l = l.foldr (fun kv acc =>
      (if ¬ kv.1.1 < (i : ℤ) ∧ mapGet M kv.1.1 = kv.1.2 then kv.2 else 0) + acc) 0 := by
  induction l with
  | nil => rfl
  | cons kv t ih =>
    obtain ⟨k, v⟩ := kv
    simp only [relScan, List.foldr_cons, ih]
    congr 1
    split_ifs <;> tauto

lemma relScan_eq_sum (M : List ℤ) (i : ℕ) (l : List (NodePair × ℚ))
    (hnd : (l.map Prod.fst).Nodup)
    (hb : ∀ kv ∈ l, 0 ≤ kv.1.1 ∧ 0 ≤ kv.1.2) :
    relScan M i l = ∑ j in Finset.range M.length,
      if i ≤ j then (alookup l ((j : ℤ), mapGetD M j)).getD 0 else 0 := by
  rw [relScan_eq_foldr]
  refine entryScan_eq_sum M.length (fun j => ((j : ℤ), mapGetD M j)) ?_
    (fun j => i ≤ j) (fun p => ¬ p.1 < (i : ℤ) ∧ mapGet M p.1 = p.2) l hnd ?_
  · intro a b hab
    simpa using congrArg Prod.fst hab
  · intro kv hkv
    obtain ⟨hb1, hb2⟩ := hb kv hkv
    constructor
    · rintro ⟨hge, hmap⟩
      have htn : kv.1.1.toNat < M.length := by
        by_contra hge2
        have : mapGet M kv.1.1 = -2 := by
          unfold mapGet
          exact List.getD_eq_default _ _ (by omega)
        omega
      refine ⟨kv.1.1.toNat, htn, ?_, by omega⟩
      have h2 : mapGetD M kv.1.1.toNat = kv.1.2 := by
        rw [← hmap]
        unfold mapGet mapGetD
        rw [List.getD_eq_getElem _ _ htn, List.getD_eq_getElem _ _ htn]
      exact Prod.ext (by dsimp only; omega) (by dsimp only; exact h2.symm)
    · rintro ⟨j, hjL, hkey, hQ⟩
      have h1 : kv.1.1 = (j : ℤ) := congrArg Prod.fst hkey
      have h2 : kv.1.2 = mapGetD M j := congrArg Prod.snd hkey
      constructor
      · omega
      · rw [h1, h2]
        unfold mapGet mapGetD
        rw [List.getD_eq_getElem _ _ (by simpa using hjL),
          List.getD_eq_getElem _ _ (by simpa using hjL)]
        simp

/-! ## compute_match agrees with the specification formula -/

lemma matchValueAux_eq (W : WDict) (M : List ℤ) :
    ∀ (l : List ℤ) (i : ℕ), matchValueAux W M l i
      = ∑ k in Finset.range l.length, pairScore W M (i + k) (l.getD k 0) := by
  intro l
  induction l with
  | nil => intro i; simp [matchValueAux]
  | cons m rest ih =>
    intro i
    rw [matchValueAux, ih (i + 1), List.length_cons, Finset.sum_range_succ']
    simp only [List.getD_cons_zero, List.getD_cons_succ, add_zero]
    rw [add_comm]
    congr 1
    apply Finset.sum_congr rfl
    intro k _
    have : i + 1 + k = i + (k + 1) := by omega
    rw [this]

lemma matchValue_eq_sum (M : List ℤ) (W : WDict) :
    matchValue M W = ∑ k in Finset.range M.length, pairScore W M k (mapGetD M k) := by
  rw [matchValue, matchValueAux_eq]
  apply Finset.sum_congr rfl
  intro k hk
  rw [zero_add]
  congr 1
  rw [List.getD_eq_getElem _ _ (Finset.mem_range.mp hk)]
  unfold mapGetD
  rw [List.getD_eq_getElem _ _ (Finset.mem_range.mp hk)]

lemma pairScore_row {W : WDict} (h : WF W) (M : List ℤ) (i : ℕ) :
    pairScore W M i (mapGetD M i)
      = (if mapGetD M i ≠ -1 then selfD W ((i : ℤ), mapGetD M i) else 0)
        + ∑ j in Finset.range M.length,
            (if i < j ∧ mapGetD M i ≠ -1 ∧ mapGetD M j ≠ -1 then
              relD W ((i : ℤ), mapGetD M i) ((j : ℤ), mapGetD M j) else 0) := by
  by_cases hm1 : mapGetD M i = -1
  · simp [pairScore, hm1]
  · unfold pairScore
    rw [if_neg hm1]
    cases hW : alookup W ((i : ℤ), mapGetD M i) with
    | none =>
      have hself : selfD W ((i : ℤ), mapGetD M i) = 0 := by simp [selfD, hW]
      have hrel : ∀ q, relD W ((i : ℤ), mapGetD M i) q = 0 := by
        intro q; simp [relD, relLookup, hW]
      rw [if_pos hm1, hself]
      simp [hrel]
    | some e =>
      have hnd := h.nodupInner _ e hW
      have hbnds := h.inner _ e hW
      change e.self + relScan M i e.rel = _
      rw [relScan_eq_sum M i e.rel hnd hbnds]
      have hself : selfD W ((i : ℤ), mapGetD M i) = e.self := by simp [selfD, hW]
      rw [if_pos hm1, hself]
      congr 1
      apply Finset.sum_congr rfl
      intro j hj
      by_cases hij : i < j
      · rw [if_pos (le_of_lt hij)]
        by_cases hmj : mapGetD M j = -1
        · rw [if_neg (fun hc => hc.2.2 hmj)]
          have hnone : alookup e.rel ((j : ℤ), mapGetD M j) = none := by
            apply alookup_eq_none_of_not_mem
            intro hmem
            obtain ⟨kv, hkv, hfst⟩ := List.mem_map.mp hmem
            have := (hbnds kv hkv).2
            rw [hfst, hmj] at this
            omega
          rw [hnone]
          rfl
        · rw [if_pos ⟨hij, hm1, hmj⟩]
          simp [relD, relLookup, hW]
      · by_cases hji : i = j
        · subst hji
          rw [if_pos (le_refl i), if_neg (fun hc => hij hc.1)]
          have hns : alookup e.rel ((i : ℤ), mapGetD M i) = none := by
            have := h.noself ((i : ℤ), mapGetD M i)
            rw [relLookup, hW] at this
            exact this
          rw [hns]
          rfl
        · rw [if_neg (by omega), if_neg (fun hc => hij hc.1)]

/-- Under well-formedness, the from-scratch score computed by the
`compute_match` loop equals the specification formula. -/
lemma matchValue_eq_specMatch {W : WDict} (h : WF W) (M : List ℤ) :
    matchValue M W = specMatch M W := by
  rw [matchValue_eq_sum, specMatch, ← Finset.sum_add_distrib]
  apply Finset.sum_congr rfl
  intro i _
  exact pairScore_row h M i

/-! ## Cross sums and the gain scans -/

/-- The interaction of pair `p` with every position of `mp` (unguarded; the
terms of unmapped positions vanish under well-formedness). -/
def crossSum (W : WDict) (p : NodePair) (mp : List ℤ) : ℚ :=
  ∑ j in Finset.range mp.length, relD W p ((j : ℤ), mapGetD mp j)

/-- `crossSum` with one AMR-1 index excluded. -/
def crossSumSkip (W : WDict) (p : NodePair) (mp : List ℤ) (s : ℤ) : ℚ :=
  ∑ j in Finset.range mp.length,
    if (j : ℤ) ≠ s then relD W p ((j : ℤ), mapGetD mp j) else 0

lemma selfD_vanish {W : WDict} (h : WF W) {p : NodePair} (hp : p.2 < 0) :
    selfD W p = 0 := by
  unfold selfD
  cases hW : alookup W p with
  | none => rfl
  | some e =>
    have := (h.outer p e hW).2
    omega

lemma relD_vanish_left {W : WDict} (h : WF W) {p : NodePair} (hp : p.2 < 0)
    (q : NodePair) : relD W p q = 0 := by
  unfold relD relLookup
  cases hW : alookup W p with
  | none => rfl
  | some e =>
    have := (h.outer p e hW).2
    omega

lemma relD_vanish_right {W : WDict} (h : WF W) (p : NodePair) {q : NodePair}
    (hq : q.2 < 0) : relD W p q = 0 := by
  unfold relD relLookup
  cases hW : alookup W p with
  | none => rfl
  | some e =>
    have hnone : alookup e.rel q = none := by
      apply alookup_eq_none_of_not_mem
      intro hmem
      obtain ⟨kv, hkv, hfst⟩ := List.mem_map.mp hmem
      have := (h.inner p e hW kv hkv).2
      rw [hfst] at this
      omega
    change (alookup e.rel q).getD 0 = 0
    rw [hnone]
    rfl

lemma relD_self_zero {W : WDict} (h : WF W) (p : NodePair) : relD W p p = 0 := by
  unfold relD
  rw [h.noself p]
  rfl

lemma gainScan_eq {W : WDict} (h : WF W) (p : NodePair) (mp : List ℤ) :
    gainScan W p mp = selfD W p + crossSum W p mp := by
  unfold gainScan
  cases hW : alookup W p with
  | none =>
    have hself : selfD W p = 0 := by simp [selfD, hW]
    have hrel : crossSum W p mp = 0 := by
      unfold crossSum
      apply Finset.sum_eq_zero
      intro j _
      simp [relD, relLookup, hW]
    rw [hself, hrel]
    norm_num
  | some e =>
    have hnd := h.nodupInner p e hW
    have hbnds := h.inner p e hW
    have hscan := entryScan_eq_sum mp.length (fun j => ((j : ℤ), mapGetD mp j))
      (fun a b hab => by simpa using congrArg Prod.fst hab)
      (fun _ => True) (fun q => mapGet mp q.1 = q.2) e.rel hnd ?_
    · have hscan2 : e.rel.foldr (fun kv acc =>
          (if mapGet mp kv.1.1 = kv.1.2 then kv.2 else 0) + acc) 0
          = ∑ j in Finset.range mp.length,
              (alookup e.rel ((j : ℤ), mapGetD mp j)).getD 0 := by
        simpa using hscan
      change e.self + e.rel.foldr (fun kv acc =>
        (if mapGet mp kv.1.1 = kv.1.2 then kv.2 else 0) + acc) 0 = _
      rw [hscan2]
      have hself : selfD W p = e.self := by simp [selfD, hW]
      have hsum : ∀ j ∈ Finset.range mp.length,
          (alookup e.rel ((j : ℤ), mapGetD mp j)).getD 0
            = relD W p ((j : ℤ), mapGetD mp j) := by
        intro j _
        simp [relD, relLookup, hW]
      rw [Finset.sum_congr rfl hsum, hself]
      rfl
    · intro kv hkv
      obtain ⟨hb1, hb2⟩ := hbnds kv hkv
      constructor
      · intro hmap
        have htn : kv.1.1.toNat < mp.length := by
          by_contra hge2
          have : mapGet mp kv.1.1 = -2 := by
            unfold mapGet
            exact List.getD_eq_default _ _ (by omega)
          omega
        refine ⟨kv.1.1.toNat, htn, ?_, trivial⟩
        have h2 : mapGetD mp kv.1.1.toNat = kv.1.2 := by
          rw [← hmap]
          unfold mapGet mapGetD
          rw [List.getD_eq_getElem _ _ htn, List.getD_eq_getElem _ _ htn]
        exact Prod.ext (by dsimp only; omega) (by dsimp only; exact h2.symm)
      · rintro ⟨j, hjL, hkey, -⟩
        have h1 : kv.1.1 = (j : ℤ) := congrArg Prod.fst hkey
        have h2 : kv.1.2 = mapGetD mp j := congrArg Prod.snd hkey
        rw [h1, h2]
        unfold mapGet mapGetD
        rw [List.getD_eq_getElem _ _ (by simpa using hjL),
          List.getD_eq_getElem _ _ (by simpa using hjL)]
        simp

lemma gainScanSkip_eq {W : WDict} (h : WF W) (p : NodePair) (mp : List ℤ)
    (s : ℤ) : gainScanSkip W p mp s = selfD W p + crossSumSkip W p mp s := by
  unfold gainScanSkip
  cases hW : alookup W p with
  | none =>
    have hself : selfD W p = 0 := by simp [selfD, hW]
    have hrel : crossSumSkip W p mp s = 0 := by
      unfold crossSumSkip
      apply Finset.sum_eq_zero
      intro j _
      simp [relD, relLookup, hW]
    rw [hself, hrel]
    norm_num
  | some e =>
    have hnd := h.nodupInner p e hW
    have hbnds := h.inner p e hW
    have hfold : (e.rel.foldr (fun kv acc =>
        (if kv.1.1 = s then 0
         else if mapGet mp kv.1.1 = kv.1.2 then kv.2 else 0) + acc) 0)
        = (e.rel.foldr (fun kv acc =>
        (if kv.1.1 ≠ s ∧ mapGet mp kv.1.1 = kv.1.2 then kv.2 else 0) + acc) 0) := by
      induction e.rel with
      | nil => rfl
      | cons kv t ih =>
        simp only [List.foldr_cons, ih]
        congr 1
        split_ifs <;> tauto
    change e.self + e.rel.foldr (fun kv acc =>
      (if kv.1.1 = s then 0
       else if mapGet mp kv.1.1 = kv.1.2 then kv.2 else 0) + acc) 0 = _
    rw [hfold]
    have hscan := entryScan_eq_sum mp.length (fun j => ((j : ℤ), mapGetD mp j))
      (fun a b hab => by simpa using congrArg Prod.fst hab)
      (fun j => (j : ℤ) ≠ s) (fun q => q.1 ≠ s ∧ mapGet mp q.1 = q.2) e.rel hnd ?_
    · have hscan2 : e.rel.foldr (fun kv acc =>
          (if kv.1.1 ≠ s ∧ mapGet mp kv.1.1 = kv.1.2 then kv.2 else 0) + acc) 0
          = ∑ j in Finset.range mp.length,
              if (j : ℤ) ≠ s then (alookup e.rel ((j : ℤ), mapGetD mp j)).getD 0 else 0 := by
        simpa using hscan
      rw [hscan2]
      have hself : selfD W p = e.self := by simp [selfD, hW]
      have hsum : ∀ j ∈ Finset.range mp.length,
          (if (j : ℤ) ≠ s then (alookup e.rel ((j : ℤ), mapGetD mp j)).getD 0 else 0)
            = (if (j : ℤ) ≠ s then relD W p ((j : ℤ), mapGetD mp j) else 0) := by
        intro j _
        split_ifs with hj
        · simp [relD, relLookup, hW]
        · rfl
      rw [Finset.sum_congr rfl hsum, hself]
      rfl
    · intro kv hkv
      obtain ⟨hb1, hb2⟩ := hbnds kv hkv
      constructor
      · rintro ⟨hks, hmap⟩
        have htn : kv.1.1.toNat < mp.length := by
          by_contra hge2
          have : mapGet mp kv.1.1 = -2 := by
            unfold mapGet
            exact List.getD_eq_default _ _ (by omega)
          omega
        refine ⟨kv.1.1.toNat, htn, ?_, by dsimp only; omega⟩
        have h2 : mapGetD mp kv.1.1.toNat = kv.1.2 := by
          rw [← hmap]
          unfold mapGet mapGetD
          rw [List.getD_eq_getElem _ _ htn, List.getD_eq_getElem _ _ htn]
        exact Prod.ext (by dsimp only; omega) (by dsimp only; exact h2.symm)
      · rintro ⟨j, hjL, hkey, hQ⟩
        have h1 : kv.1.1 = (j : ℤ) := congrArg Prod.fst hkey
        have h2 : kv.1.2 = mapGetD mp j := congrArg Prod.snd hkey
        constructor
        · rw [h1]; simpa using hQ
        · rw [h1, h2]
          unfold mapGet mapGetD
          rw [List.getD_eq_getElem _ _ (by simpa using hjL),
            List.getD_eq_getElem _ _ (by simpa using hjL)]
          simp

/-! ## Decomposition of the specification score at one position -/

lemma mapGetD_set (M : List ℤ) (i : ℕ) (v : ℤ) (j : ℕ) :
    mapGetD (M.set i v) j = if j = i ∧ i < M.length then v else mapGetD M j := by
  unfold mapGetD
  by_cases hj : j < M.length
  · rw [List.getD_eq_getElem _ _ (by simpa using hj), List.getElem_set,
      List.getD_eq_getElem _ _ hj]
    by_cases hij : i = j
    · subst hij
      simp [hj]
    · rw [if_neg hij, if_neg (fun hc => hij hc.1.symm)]
  · rw [List.getD_eq_default _ _ (by simp; omega), List.getD_eq_default _ _ (by omega)]
    rw [if_neg (fun hc => hj (by omega))]

/-- The self-score guard is redundant under well-formedness: an unmapped pair
has no weight entry. -/
lemma selfD_guard {W : WDict} (h : WF W) (i : ℤ) (v : ℤ) :
    (if v ≠ -1 then selfD W (i, v) else 0) = selfD W (i, v) := by
  split_ifs with hv
  · rfl
  · rw [selfD_vanish h (by push_neg at hv; simp [hv])]

/-- Everything in the specification score except the terms involving
position `i`. -/
def exceptSum (W : WDict) (M : List ℤ) (i : ℕ) : ℚ :=
  (∑ a in Finset.range M.length,
    if a ≠ i ∧ mapGetD M a ≠ -1 then selfD W ((a : ℤ), mapGetD M a) else 0)
  + ∑ a in Finset.range M.length, ∑ b in Finset.range M.length,
      if a ≠ i ∧ b ≠ i ∧ a < b ∧ mapGetD M a ≠ -1 ∧ mapGetD M b ≠ -1 then
        relD W ((a : ℤ), mapGetD M a) ((b : ℤ), mapGetD M b) else 0

lemma exceptSum_set (W : WDict) (M : List ℤ) (i : ℕ) (v : ℤ) :
    exceptSum W (M.set i v) i = exceptSum W M i := by
  unfold exceptSum
  simp only [List.length_set]
  congr 1
  · apply Finset.sum_congr rfl
    intro a _
    by_cases hai : a = i
    · rw [if_neg (fun hc => hc.1 hai), if_neg (fun hc => hc.1 hai)]
    · have hset : mapGetD (M.set i v) a = mapGetD M a := by
        rw [mapGetD_set, if_neg (fun hc => hai hc.1)]
      rw [hset]
  · apply Finset.sum_congr rfl
    intro a _
    apply Finset.sum_congr rfl
    intro b _
    by_cases hai : a = i
    · rw [if_neg (fun hc => hc.1 hai), if_neg (fun hc => hc.1 hai)]
    · by_cases hbi : b = i
      · rw [if_neg (fun hc => hc.2.1 hbi), if_neg (fun hc => hc.2.1 hbi)]
      · have hseta : mapGetD (M.set i v) a = mapGetD M a := by
          rw [mapGetD_set, if_neg (fun hc => hai hc.1)]
        have hsetb : mapGetD (M.set i v) b = mapGetD M b := by
          rw [mapGetD_set, if_neg (fun hc => hbi hc.1)]
        rw [hseta, hsetb]

lemma specMatch_decomp {W : WDict} (h : WF W) (M : List ℤ) (i : ℕ)
    (hi : i < M.length) :
    specMatch M W = exceptSum W M i
      + (if mapGetD M i ≠ -1 then selfD W ((i : ℤ), mapGetD M i) else 0)
      + crossSumSkip W ((i : ℤ), mapGetD M i) M (i : ℤ) := by
  have hiR : i ∈ Finset.range M.length := Finset.mem_range.mpr hi
  unfold specMatch exceptSum crossSumSkip
  have hself : ∀ a ∈ Finset.range M.length,
      (if mapGetD M a ≠ -1 then selfD W ((a : ℤ), mapGetD M a) else 0)
        = (if a ≠ i ∧ mapGetD M a ≠ -1 then selfD W ((a : ℤ), mapGetD M a) else 0)
          + (if a = i then
              (if mapGetD M i ≠ -1 then selfD W ((i : ℤ), mapGetD M i) else 0) else 0) := by
    intro a _
    by_cases hai : a = i
    · subst hai
      simp
    · simp [hai]
  have hrow : ∀ a ∈ Finset.range M.length,
      (∑ b in Finset.range M.length,
        if a < b ∧ mapGetD M a ≠ -1 ∧ mapGetD M b ≠ -1 then
          relD W ((a : ℤ), mapGetD M a) ((b : ℤ), mapGetD M b) else 0)
      = (∑ b in Finset.range M.length,
          if a ≠ i ∧ b ≠ i ∧ a < b ∧ mapGetD M a ≠ -1 ∧ mapGetD M b ≠ -1 then
            relD W ((a : ℤ), mapGetD M a) ((b : ℤ), mapGetD M b) else 0)
        + (if a = i then
            (∑ b in Finset.range M.length,
              if i < b ∧ mapGetD M i ≠ -1 ∧ mapGetD M b ≠ -1 then
                relD W ((i : ℤ), mapGetD M i) ((b : ℤ), mapGetD M b) else 0) else 0)
        + (if a = i then 0 else
            (if a < i ∧ mapGetD M a ≠ -1 ∧ mapGetD M i ≠ -1 then
              relD W ((a : ℤ), mapGetD M a) ((i : ℤ), mapGetD M i) else 0)) := by
    intro a _
    by_cases hai : a = i
    · subst hai
      simp
    · simp only [hai, if_false, if_neg hai, add_zero, zero_add]
      have hsplit : ∀ b ∈ Finset.range M.length,
          (if a < b ∧ mapGetD M a ≠ -1 ∧ mapGetD M b ≠ -1 then
            relD W ((a : ℤ), mapGetD M a) ((b : ℤ), mapGetD M b) else 0)
          = (if a ≠ i ∧ b ≠ i ∧ a < b ∧ mapGetD M a ≠ -1 ∧ mapGetD M b ≠ -1 then
              relD W ((a : ℤ), mapGetD M a) ((b : ℤ), mapGetD M b) else 0)
            + (if b = i then
                (if a < i ∧ mapGetD M a ≠ -1 ∧ mapGetD M i ≠ -1 then
                  relD W ((a : ℤ), mapGetD M a) ((i : ℤ), mapGetD M i) else 0) else 0) := by
        intro b _
        by_cases hbi : b = i
        · subst hbi
          simp [hai]
        · simp [hai, hbi]
      rw [Finset.sum_congr rfl hsplit, Finset.sum_add_distrib,
        Finset.sum_ite_eq' _ i _, if_pos hiR]
  rw [Finset.sum_congr rfl hself, Finset.sum_add_distrib,
    Finset.sum_ite_eq' _ i _, if_pos hiR,
    Finset.sum_congr rfl hrow, Finset.sum_add_distrib, Finset.sum_add_distrib,
    Finset.sum_ite_eq' _ i _, if_pos hiR]
  have hcs : ∀ j ∈ Finset.range M.length,
      (if (j : ℤ) ≠ (i : ℤ) then
        relD W ((i : ℤ), mapGetD M i) ((j : ℤ), mapGetD M j) else 0)
      = (if i < j ∧ mapGetD M i ≠ -1 ∧ mapGetD M j ≠ -1 then
          relD W ((i : ℤ), mapGetD M i) ((j : ℤ), mapGetD M j) else 0)
        + (if j = i then 0 else
            (if j < i ∧ mapGetD M j ≠ -1 ∧ mapGetD M i ≠ -1 then
              relD W ((j : ℤ), mapGetD M j) ((i : ℤ), mapGetD M i) else 0)) := by
    intro j _
    by_cases hji : j = i
    · subst hji
      simp
    · rw [if_pos (by omega : (j : ℤ) ≠ (i : ℤ)), if_neg hji]
      by_cases hmi : mapGetD M i = -1
      · have hv : relD W ((i : ℤ), mapGetD M i) ((j : ℤ), mapGetD M j) = 0 :=
          relD_vanish_left h (by simp [hmi]) _
        have hv2 : relD W ((j : ℤ), mapGetD M j) ((i : ℤ), mapGetD M i) = 0 :=
          relD_vanish_right h _ (by simp [hmi])
        rw [hmi] at hv hv2
        simp [hmi, hv, hv2]
      · by_cases hmj : mapGetD M j = -1
        · have hv : relD W ((i : ℤ), mapGetD M i) ((j : ℤ), mapGetD M j) = 0 :=
            relD_vanish_right h _ (by simp [hmj])
          have hv2 : relD W ((j : ℤ), mapGetD M j) ((i : ℤ), mapGetD M i) = 0 :=
            relD_vanish_left h (by simp [hmj]) _
          rw [hmj] at hv hv2
          simp [hmj, hv, hv2]
        · by_cases hij : i < j
          · simp [hij, hmi, hmj, show ¬ j < i by omega]
          · have hji2 : j < i := by omega
            simp only [hij, false_and, if_false, hji2, hmi, hmj, ne_eq,
              not_false_eq_true, and_self, if_true, zero_add]
            exact relD_comm h.sym _ _
  rw [Finset.sum_congr rfl hcs, Finset.sum_add_distrib]
  ring

lemma crossSumSkip_congr_set (W : WDict) (p : NodePair) (M : List ℤ) (a : ℕ)
    (v : ℤ) (s : ℤ) (hs : (a : ℤ) = s) :
    crossSumSkip W p (M.set a v) s = crossSumSkip W p M s := by
  unfold crossSumSkip
  simp only [List.length_set]
  apply Finset.sum_congr rfl
  intro j _
  by_cases hj : (j : ℤ) ≠ s
  · rw [if_pos hj, if_pos hj, mapGetD_set,
      if_neg (fun hc => hj (by rw [hc.1]; exact hs))]
  · rw [if_neg hj, if_neg hj]

lemma crossSum_split (W : WDict) (p : NodePair) (M : List ℤ) (i : ℕ)
    (hi : i < M.length) :
    crossSum W p M = crossSumSkip W p M (i : ℤ) + relD W p ((i : ℤ), mapGetD M i) := by
  unfold crossSum crossSumSkip
  have hpoint : ∀ j ∈ Finset.range M.length,
      relD W p ((j : ℤ), mapGetD M j)
        = (if (j : ℤ) ≠ (i : ℤ) then relD W p ((j : ℤ), mapGetD M j) else 0)
          + (if j = i then relD W p ((i : ℤ), mapGetD M i) else 0) := by
    intro j _
    by_cases hji : j = i
    · subst hji
      simp
    · rw [if_pos (by omega : (j : ℤ) ≠ (i : ℤ)), if_neg hji, add_zero]
  rw [Finset.sum_congr rfl hpoint, Finset.sum_add_distrib,
    Finset.sum_ite_eq' _ i _, if_pos (Finset.mem_range.mpr hi)]

lemma crossSum_set (W : WDict) (p : NodePair) (M : List ℤ) (i : ℕ) (v : ℤ)
    (hi : i < M.length) :
    crossSum W p (M.set i v) = crossSumSkip W p M (i : ℤ) + relD W p ((i : ℤ), v) := by
  rw [crossSum_split W p (M.set i v) i (by rw [List.length_set]; exact hi),
    crossSumSkip_congr_set W p M i v (i : ℤ) rfl,
    mapGetD_set, if_pos ⟨rfl, hi⟩]

lemma specMatch_set {W : WDict} (h : WF W) (M : List ℤ) (i : ℕ)
    (hi : i < M.length) (v : ℤ) :
    specMatch (M.set i v) W = specMatch M W
      - (selfD W ((i : ℤ), mapGetD M i) + crossSumSkip W ((i : ℤ), mapGetD M i) M (i : ℤ))
      + (selfD W ((i : ℤ), v) + crossSumSkip W ((i : ℤ), v) M (i : ℤ)) := by
  have h1 := specMatch_decomp h M i hi
  have h2 := specMatch_decomp h (M.set i v) i (by rw [List.length_set]; exact hi)
  have h3 := exceptSum_set W M i v
  have h4 : mapGetD (M.set i v) i = v := by rw [mapGetD_set, if_pos ⟨rfl, hi⟩]
  rw [h3, h4, crossSumSkip_congr_set W ((i : ℤ), v) M i v (i : ℤ) rfl] at h2
  rw [selfD_guard h] at h1 h2
  rw [h1, h2]
  ring

/-- `crossSum` with two AMR-1 indices excluded. -/
def crossSumSkip2 (W : WDict) (p : NodePair) (mp : List ℤ) (s t : ℤ) : ℚ :=
  ∑ j in Finset.range mp.length,
    if (j : ℤ) ≠ s ∧ (j : ℤ) ≠ t then relD W p ((j : ℤ), mapGetD mp j) else 0

lemma crossSumSkip2_comm (W : WDict) (p : NodePair) (mp : List ℤ) (s t : ℤ) :
    crossSumSkip2 W p mp s t = crossSumSkip2 W p mp t s := by
  unfold crossSumSkip2
  apply Finset.sum_congr rfl
  intro j _
  exact if_congr and_comm rfl rfl

lemma crossSumSkip2_congr_set (W : WDict) (p : NodePair) (M : List ℤ) (a : ℕ)
    (v : ℤ) (s t : ℤ) (hs : (a : ℤ) = s ∨ (a : ℤ) = t) :
    crossSumSkip2 W p (M.set a v) s t = crossSumSkip2 W p M s t := by
  unfold crossSumSkip2
  simp only [List.length_set]
  apply Finset.sum_congr rfl
  intro j _
  by_cases hj : (j : ℤ) ≠ s ∧ (j : ℤ) ≠ t
  · have hne : ¬ (j = a ∧ a < M.length) := by
      rintro ⟨hja, -⟩
      subst hja
      rcases hs with hs | hs
      · exact hj.1 hs
      · exact hj.2 hs
    rw [if_pos hj, if_pos hj, mapGetD_set, if_neg hne]
  · rw [if_neg hj, if_neg hj]

lemma crossSumSkip_split2 (W : WDict) (p : NodePair) (M : List ℤ) (s : ℤ)
    (k : ℕ) (hks : (k : ℤ) ≠ s) (hk : k < M.length) :
    crossSumSkip W p M s
      = crossSumSkip2 W p M s (k : ℤ) + relD W p ((k : ℤ), mapGetD M k) := by
  unfold crossSumSkip crossSumSkip2
  have hpoint : ∀ j ∈ Finset.range M.length,
      (if (j : ℤ) ≠ s then relD W p ((j : ℤ), mapGetD M j) else 0)
        = (if (j : ℤ) ≠ s ∧ (j : ℤ) ≠ (k : ℤ) then
            relD W p ((j : ℤ), mapGetD M j) else 0)
          + (if j = k then relD W p ((k : ℤ), mapGetD M k) else 0) := by
    intro j _
    by_cases hjk : j = k
    · subst hjk
      simp [hks]
    · have hjk2 : (j : ℤ) ≠ (k : ℤ) := by omega
      simp [hjk, hjk2]
  rw [Finset.sum_congr rfl hpoint, Finset.sum_add_distrib,
    Finset.sum_ite_eq' _ k _, if_pos (Finset.mem_range.mpr hk)]

/-! ## Exactness of the incremental gains -/

/-- The MOVE gain computed by the scans equals the difference of the
specification scores. -/
lemma move_gain_formula {W : WDict} (h : WF W) (M : List ℤ) (i : ℕ)
    (hi : i < M.length) (v : ℤ) :
    gainScan W ((i : ℤ), v) (M.set i v) - gainScan W ((i : ℤ), mapGetD M i) M
      = specMatch (M.set i v) W - specMatch M W := by
  rw [gainScan_eq h, gainScan_eq h, crossSum_set W _ M i v hi,
    crossSum_split W _ M i hi, relD_self_zero h, relD_self_zero h,
    specMatch_set h M i hi v]
  ring

/-- `move_gain` unfolded (memoisation case split made explicit). -/
lemma move_gain_eq (M : List ℤ) (i : ℕ) (o v : ℤ) (W : WDict) (mn : ℚ)
    (memo : Memo) :
    move_gain M i o v W mn memo
      = match alookup memo (M.set i v) with
        | some w => (w - mn, memo)
        | none =>
          (gainScan W ((i : ℤ), v) (M.set i v) - gainScan W ((i : ℤ), o) M,
           (M.set i v, mn + (gainScan W ((i : ℤ), v) (M.set i v)
              - gainScan W ((i : ℤ), o) M)) :: memo) := rfl

/-- `move_gain` returns exactly the difference of the from-scratch scores,
stores the absolute score of the new mapping, and preserves memo
consistency. -/
lemma move_gain_exact {W : WDict} (h : WF W) (M : List ℤ) (i : ℕ)
    (hi : i < M.length) (v : ℤ) (mn : ℚ) (memo : Memo)
    (hmemo : MemoOK W memo) (hmn : mn = specMatch M W) :
    (move_gain M i (mapGetD M i) v W mn memo).1
        = specMatch (M.set i v) W - specMatch M W
    ∧ alookup (move_gain M i (mapGetD M i) v W mn memo).2 (M.set i v)
        = some (mn + (move_gain M i (mapGetD M i) v W mn memo).1)
    ∧ MemoOK W (move_gain M i (mapGetD M i) v W mn memo).2 := by
  rw [move_gain_eq]
  cases hm : alookup memo (M.set i v) with
  | some w =>
    have hw := hmemo _ _ hm
    refine ⟨by rw [hw, hmn], ?_, hmemo⟩
    rw [hm, hw]
    exact congrArg some (by ring)
  | none =>
    have hg := move_gain_formula h M i hi v
    refine ⟨hg, ?_, ?_⟩
    · simp [alookup]
    · intro m w hmw
      simp only [alookup] at hmw
      by_cases hk : M.set i v = m
      · rw [if_pos hk] at hmw
        have hw : w = mn + (gainScan W ((i : ℤ), v) (M.set i v)
            - gainScan W ((i : ℤ), mapGetD M i) M) := by
          exact (Option.some.injEq _ _ ▸ hmw).symm
        rw [hw, hg, hmn, ← hk]
        ring
      · rw [if_neg hk] at hmw
        exact hmemo m w hmw

/-- The SWAP gain computed by the scans (in the `node_id1 < node_id2`
orientation used by `get_best_gain`) equals the difference of the
specification scores. -/
lemma swap_gain_formula {W : WDict} (h : WF W) (M : List ℤ) (i j : ℕ)
    (hij : i < j) (hj : j < M.length) :
    gainScan W ((i : ℤ), mapGetD M j) ((M.set i (mapGetD M j)).set j (mapGetD M i))
      + gainScanSkip W ((j : ℤ), mapGetD M i)
          ((M.set i (mapGetD M j)).set j (mapGetD M i)) (i : ℤ)
      - gainScan W ((i : ℤ), mapGetD M i) M
      - gainScanSkip W ((j : ℤ), mapGetD M j) M (i : ℤ)
      = specMatch ((M.set i (mapGetD M j)).set j (mapGetD M i)) W
          - specMatch M W := by
  have hi : i < M.length := lt_trans hij hj
  have hL1 : (M.set i (mapGetD M j)).length = M.length := by rw [List.length_set]
  have hj1 : j < (M.set i (mapGetD M j)).length := by rw [hL1]; exact hj
  have hi1 : i < (M.set i (mapGetD M j)).length := by rw [hL1]; exact hi
  have hjiZ : (j : ℤ) ≠ (i : ℤ) := by omega
  have hijZ : (i : ℤ) ≠ (j : ℤ) := by omega
  have hjiN : j ≠ i := by omega
  have hm1i : mapGetD (M.set i (mapGetD M j)) i = mapGetD M j := by
    rw [mapGetD_set, if_pos ⟨rfl, hi⟩]
  have hm1j : mapGetD (M.set i (mapGetD M j)) j = mapGetD M j := by
    rw [mapGetD_set, if_neg (fun hc => hjiN hc.1)]
  have hm2j : mapGetD ((M.set i (mapGetD M j)).set j (mapGetD M i)) j
      = mapGetD M i := by
    rw [mapGetD_set, if_pos ⟨rfl, hj1⟩]
  have ha : ∀ p : NodePair,
      gainScan W p ((M.set i (mapGetD M j)).set j (mapGetD M i))
        = selfD W p + crossSumSkip2 W p M (i : ℤ) (j : ℤ)
          + relD W p ((i : ℤ), mapGetD M j) + relD W p ((j : ℤ), mapGetD M i) := by
    intro p
    rw [gainScan_eq h,
      crossSum_split W p _ j (by rw [List.length_set, hL1]; exact hj),
      hm2j,
      crossSumSkip_congr_set W p (M.set i (mapGetD M j)) j (mapGetD M i) (j : ℤ) rfl,
      crossSumSkip_split2 W p (M.set i (mapGetD M j)) (j : ℤ) i hijZ hi1,
      hm1i,
      crossSumSkip2_congr_set W p M i (mapGetD M j) (j : ℤ) (i : ℤ) (Or.inr rfl),
      crossSumSkip2_comm]
    ring
  have hb : ∀ p : NodePair,
      gainScanSkip W p ((M.set i (mapGetD M j)).set j (mapGetD M i)) (i : ℤ)
        = selfD W p + crossSumSkip2 W p M (i : ℤ) (j : ℤ)
          + relD W p ((j : ℤ), mapGetD M i) := by
    intro p
    rw [gainScanSkip_eq h,
      crossSumSkip_split2 W p _ (i : ℤ) j hjiZ
        (by rw [List.length_set, hL1]; exact hj),
      hm2j,
      crossSumSkip2_congr_set W p (M.set i (mapGetD M j)) j (mapGetD M i)
        (i : ℤ) (j : ℤ) (Or.inr rfl),
      crossSumSkip2_congr_set W p M i (mapGetD M j) (i : ℤ) (j : ℤ) (Or.inl rfl)]
    ring
  have hc : ∀ p : NodePair,
      gainScan W p M
        = selfD W p + crossSumSkip2 W p M (i : ℤ) (j : ℤ)
          + relD W p ((i : ℤ), mapGetD M i) + relD W p ((j : ℤ), mapGetD M j) := by
    intro p
    rw [gainScan_eq h, crossSum_split W p M j hj,
      crossSumSkip_split2 W p M (j : ℤ) i hijZ hi, crossSumSkip2_comm]
    ring
  have hd : ∀ p : NodePair,
      gainScanSkip W p M (i : ℤ)
        = selfD W p + crossSumSkip2 W p M (i : ℤ) (j : ℤ)
          + relD W p ((j : ℤ), mapGetD M j) := by
    intro p
    rw [gainScanSkip_eq h, crossSumSkip_split2 W p M (i : ℤ) j hjiZ hj]
    ring
  have hs1 : specMatch (M.set i (mapGetD M j)) W
      = specMatch M W
        - (selfD W ((i : ℤ), mapGetD M i)
           + crossSumSkip2 W ((i : ℤ), mapGetD M i) M (i : ℤ) (j : ℤ)
           + relD W ((i : ℤ), mapGetD M i) ((j : ℤ), mapGetD M j))
        + (selfD W ((i : ℤ), mapGetD M j)
           + crossSumSkip2 W ((i : ℤ), mapGetD M j) M (i : ℤ) (j : ℤ)
           + relD W ((i : ℤ), mapGetD M j) ((j : ℤ), mapGetD M j)) := by
    rw [specMatch_set h M i hi (mapGetD M j),
      crossSumSkip_split2 W ((i : ℤ), mapGetD M i) M (i : ℤ) j hjiZ hj,
      crossSumSkip_split2 W ((i : ℤ), mapGetD M j) M (i : ℤ) j hjiZ hj]
    ring
  have hs2 : specMatch ((M.set i (mapGetD M j)).set j (mapGetD M i)) W
      = specMatch (M.set i (mapGetD M j)) W
        - (selfD W ((j : ℤ), mapGetD M j)
           + crossSumSkip2 W ((j : ℤ), mapGetD M j) M (i : ℤ) (j : ℤ)
           + relD W ((j : ℤ), mapGetD M j) ((i : ℤ), mapGetD M j))
        + (selfD W ((j : ℤ), mapGetD M i)
           + crossSumSkip2 W ((j : ℤ), mapGetD M i) M (i : ℤ) (j : ℤ)
           + relD W ((j : ℤ), mapGetD M i) ((i : ℤ), mapGetD M j)) := by
    rw [specMatch_set h (M.set i (mapGetD M j)) j hj1 (mapGetD M i), hm1j,
      crossSumSkip_split2 W ((j : ℤ), mapGetD M j) (M.set i (mapGetD M j))
        (j : ℤ) i hijZ hi1,
      crossSumSkip_split2 W ((j : ℤ), mapGetD M i) (M.set i (mapGetD M j))
        (j : ℤ) i hijZ hi1,
      hm1i,
      crossSumSkip2_congr_set W ((j : ℤ), mapGetD M j) M i (mapGetD M j)
        (j : ℤ) (i : ℤ) (Or.inr rfl),
      crossSumSkip2_congr_set W ((j : ℤ), mapGetD M i) M i (mapGetD M j)
        (j : ℤ) (i : ℤ) (Or.inr rfl),
      crossSumSkip2_comm W ((j : ℤ), mapGetD M j) M (j : ℤ) (i : ℤ),
      crossSumSkip2_comm W ((j : ℤ), mapGetD M i) M (j : ℤ) (i : ℤ)]
    ring
  rw [ha, hb, hc, hd, hs2, hs1,
    relD_self_zero h ((i : ℤ), mapGetD M j),
    relD_self_zero h ((j : ℤ), mapGetD M i),
    relD_self_zero h ((i : ℤ), mapGetD M i),
    relD_self_zero h ((j : ℤ), mapGetD M j),
    relD_comm h.sym ((j : ℤ), mapGetD M j) ((i : ℤ), mapGetD M j),
    relD_comm h.sym ((j : ℤ), mapGetD M i) ((i : ℤ), mapGetD M j)]
  ring

/-- `swap_gain` unfolded in the `node_id1 < node_id2` orientation. -/
lemma swap_gain_eq_lt (M : List ℤ) (i j : ℕ) (hij : ¬ i > j) (m1 m2 : ℤ)
    (W : WDict) (mn : ℚ) (memo : Memo) :
    swap_gain M i m1 j m2 W mn memo
      = match alookup memo ((M.set i m2).set j m1) with
        | some w => (w - mn, memo)
        | none =>
          (gainScan W ((i : ℤ), m2) ((M.set i m2).set j m1)
            + gainScanSkip W ((j : ℤ), m1) ((M.set i m2).set j m1) (i : ℤ)
            - gainScan W ((i : ℤ), m1) M
            - gainScanSkip W ((j : ℤ), m2) M (i : ℤ),
           ((M.set i m2).set j m1,
            mn + (gainScan W ((i : ℤ), m2) ((M.set i m2).set j m1)
              + gainScanSkip W ((j : ℤ), m1) ((M.set i m2).set j m1) (i : ℤ)
              - gainScan W ((i : ℤ), m1) M
              - gainScanSkip W ((j : ℤ), m2) M (i : ℤ))) :: memo) := by
  unfold swap_gain
  rw [if_neg hij]

/-- `swap_gain` (as called by `get_best_gain`, with `node_id1 < node_id2` and
the current mapping values) returns exactly the difference of the from-scratch
scores, stores the absolute score of the new mapping, and preserves memo
consistency. -/
lemma swap_gain_exact {W : WDict} (h : WF W) (M : List ℤ) (i j : ℕ)
    (hij : i < j) (hj : j < M.length) (mn : ℚ) (memo : Memo)
    (hmemo : MemoOK W memo) (hmn : mn = specMatch M W) :
    (swap_gain M i (mapGetD M i) j (mapGetD M j) W mn memo).1
        = specMatch ((M.set i (mapGetD M j)).set j (mapGetD M i)) W - specMatch M W
    ∧ alookup (swap_gain M i (mapGetD M i) j (mapGetD M j) W mn memo).2
        ((M.set i (mapGetD M j)).set j (mapGetD M i))
        = some (mn + (swap_gain M i (mapGetD M i) j (mapGetD M j) W mn memo).1)
    ∧ MemoOK W (swap_gain M i (mapGetD M i) j (mapGetD M j) W mn memo).2 := by
  rw [swap_gain_eq_lt M i j (by omega) (mapGetD M i) (mapGetD M j) W mn memo]
  cases hm : alookup memo ((M.set i (mapGetD M j)).set j (mapGetD M i)) with
  | some w =>
    have hw := hmemo _ _ hm
    refine ⟨by rw [hw, hmn], ?_, hmemo⟩
    rw [hm, hw]
    exact congrArg some (by ring)
  | none =>
    have hg := swap_gain_formula h M i j hij hj
    refine ⟨hg, ?_, ?_⟩
    · simp [alookup]
    · intro m w hmw
      simp only [alookup] at hmw
      by_cases hk : (M.set i (mapGetD M j)).set j (mapGetD M i) = m
      · rw [if_pos hk] at hmw
        have hw : w = mn
            + (gainScan W ((i : ℤ), mapGetD M j)
                ((M.set i (mapGetD M j)).set j (mapGetD M i))
              + gainScanSkip W ((j : ℤ), mapGetD M i)
                  ((M.set i (mapGetD M j)).set j (mapGetD M i)) (i : ℤ)
              - gainScan W ((i : ℤ), mapGetD M i) M
              - gainScanSkip W ((j : ℤ), mapGetD M j) M (i : ℤ)) :=
          (Option.some.injEq _ _ ▸ hmw).symm
        rw [hw, hg, hmn, ← hk]
        ring
      · rw [if_neg hk] at hmw
        exact hmemo m w hmw

/-! ## The hill-climbing loop -/

lemma climb_succ (cand : List (List ℤ)) (W : WDict) (n : ℕ) (fuel : ℕ)
    (M : List ℤ) (mn : ℚ) (memo : Memo) :
    climb cand W n (fuel + 1) M mn memo
      = if (get_best_gain M cand W n mn memo).1 ≤ epsGain
        then (M, mn, (get_best_gain M cand W n mn memo).2.2)
        else climb cand W n fuel (get_best_gain M cand W n mn memo).2.1
            (mn + (get_best_gain M cand W n mn memo).1)
            (get_best_gain M cand W n mn memo).2.2 := rfl

lemma climb_mono (cand : List (List ℤ)) (W : WDict) (n : ℕ) :
    ∀ (fuel : ℕ) (M : List ℤ) (mn : ℚ) (memo : Memo),
      mn ≤ (climb cand W n fuel M mn memo).2.1
  | 0, _, mn, _ => le_refl mn
  | fuel + 1, M, mn, memo => by
    rw [climb_succ]
    by_cases hg : (get_best_gain M cand W n mn memo).1 ≤ epsGain
    · rw [if_pos hg]
    · rw [if_neg hg]
      refine le_trans ?_ (climb_mono cand W n fuel _ _ _)
      have h0 : (0 : ℚ) < epsGain := by norm_num [epsGain]
      have h1 := lt_of_not_le hg
      linarith

/-- C7: within a single restart the hill-climbing loop is monotone: the
running match number never decreases; when the largest gain over all
neighbours is at most `1e-10` the loop stops, returning the current mapping
and score; when it exceeds `1e-10` the step is accepted, the match number
increasing by exactly that gain (in particular strictly). -/
theorem C7_monotone_search (cand : List (List ℤ)) (W : WDict) (n fuel : ℕ)
    (M : List ℤ) (mn : ℚ) (memo : Memo) :
    mn ≤ (climb cand W n fuel M mn memo).2.1
    ∧ ((get_best_gain M cand W n mn memo).1 ≤ epsGain →
        climb cand W n (fuel + 1) M mn memo
          = (M, mn, (get_best_gain M cand W n mn memo).2.2))
    ∧ (epsGain < (get_best_gain M cand W n mn memo).1 →
        climb cand W n (fuel + 1) M mn memo
          = climb cand W n fuel (get_best_gain M cand W n mn memo).2.1
              (mn + (get_best_gain M cand W n mn memo).1)
              (get_best_gain M cand W n mn memo).2.2
          ∧ mn < mn + (get_best_gain M cand W n mn memo).1) := by
  refine ⟨climb_mono cand W n fuel M mn memo, ?_, ?_⟩
  · intro hg
    rw [climb_succ, if_pos hg]
  · intro hg
    have h0 : (0 : ℚ) < epsGain := by norm_num [epsGain]
    refine ⟨?_, by linarith⟩
    rw [climb_succ, if_neg (not_le_of_lt hg)]

/-- Witness for C7: at the empty search state the largest gain is `0`, so the
loop stops immediately, and the score is (trivially) non-decreasing. -/
theorem C7_witness :
    (0 : ℚ) ≤ (climb [] [] 0 0 [] 0 []).2.1
    ∧ climb [] [] 0 1 [] 0 [] = ([], 0, (get_best_gain [] [] [] 0 0 []).2.2) :=
  ⟨(C7_monotone_search [] [] 0 0 [] 0 []).1,
   (C7_monotone_search [] [] 0 0 [] 0 []).2.1 (by with_unfolding_all decide)⟩

/-- C1: for a weight dictionary produced by `compute_pool` (triples with
non-negative node indices), an injective mapping with values in `[0, N2)` or
`-1`, a consistent memo whose entries are from-scratch scores, and the true
current score: every applicable MOVE step (`new_id` unused elsewhere) and
every SWAP step returns exactly the from-scratch score of the stepped mapping
minus that of the current one, and afterwards the memo maps the stepped
mapping to `match_num + gain`, its absolute score (consistency of the memo is
preserved). -/
theorem C1_incremental_gains
    (cfg : PoolCfg) (inst1 attr1 : List STriple) (rel1 : List RTriple)
    (inst2 attr2 : List STriple) (rel2 : List RTriple)
    (hb1 : ∀ t ∈ inst1, 0 ≤ t.node) (hb2 : ∀ t ∈ inst2, 0 ≤ t.node)
    (hb3 : ∀ t ∈ attr1, 0 ≤ t.node) (hb4 : ∀ t ∈ attr2, 0 ≤ t.node)
    (hb5 : ∀ t ∈ rel1, 0 ≤ t.src ∧ 0 ≤ t.tgt)
    (hb6 : ∀ t ∈ rel2, 0 ≤ t.src ∧ 0 ≤ t.tgt)
    (W : WDict) (hW : W = (compute_pool cfg inst1 attr1 rel1 inst2 attr2 rel2).2)
    (M : List ℤ) (mn : ℚ) (memo : Memo)
    (hmemo : MemoOK W memo) (hmn : mn = matchValue M W)
    (hvals : ∀ a, a < M.length →
      mapGetD M a = -1 ∨ (0 ≤ mapGetD M a ∧ mapGetD M a < (inst2.length : ℤ)))
    (hinj : ∀ a b, a < M.length → b < M.length →
      mapGetD M a = mapGetD M b → mapGetD M a ≠ -1 → a = b) :
    (∀ i v, i < M.length → v ∉ M →
      (move_gain M i (mapGetD M i) v W mn memo).1
          = matchValue (M.set i v) W - matchValue M W
      ∧ alookup (move_gain M i (mapGetD M i) v W mn memo).2 (M.set i v)
          = some (mn + (move_gain M i (mapGetD M i) v W mn memo).1)
      ∧ MemoOK W (move_gain M i (mapGetD M i) v W mn memo).2)
    ∧ (∀ i j, i < j → j < M.length →
      (swap_gain M i (mapGetD M i) j (mapGetD M j) W mn memo).1
          = matchValue ((M.set i (mapGetD M j)).set j (mapGetD M i)) W
            - matchValue M W
      ∧ alookup (swap_gain M i (mapGetD M i) j (mapGetD M j) W mn memo).2
          ((M.set i (mapGetD M j)).set j (mapGetD M i))
          = some (mn + (swap_gain M i (mapGetD M i) j (mapGetD M j) W mn memo).1)
      ∧ MemoOK W (swap_gain M i (mapGetD M i) j (mapGetD M j) W mn memo).2) := by
  have hWF : WF W := by
    rw [hW, compute_pool_eq]
    exact WF_poolState cfg inst1 attr1 rel1 inst2 attr2 rel2 hb1 hb2 hb3 hb4 hb5 hb6
  have hmn2 : mn = specMatch M W := by rw [hmn, matchValue_eq_specMatch hWF]
  constructor
  · intro i v hi _
    obtain ⟨h1, h2, h3⟩ := move_gain_exact hWF M i hi v mn memo hmemo hmn2
    exact ⟨by rw [h1, matchValue_eq_specMatch hWF, matchValue_eq_specMatch hWF],
      h2, h3⟩
  · intro i j hij hj
    obtain ⟨h1, h2, h3⟩ := swap_gain_exact hWF M i j hij hj mn memo hmemo hmn2
    exact ⟨by rw [h1, matchValue_eq_specMatch hWF, matchValue_eq_specMatch hWF],
      h2, h3⟩

/-- Witness for C1: on the two-node pool, at the partial mapping `[-1, 1]`
with an empty memo, both a MOVE and a SWAP gain equal the score difference. -/
theorem C1_witness :
    ((move_gain [-1, 1] 0 (mapGetD [-1, 1] 0) 0
        (compute_pool ⟨[], 1/2, 1/2, fun _ _ => 0, "split", "standard"⟩
        [⟨"instance", 0, "a"⟩, ⟨"instance", 1, "b"⟩] [] [⟨"r", 0, 1⟩]
        [⟨"instance", 0, "a"⟩, ⟨"instance", 1, "b"⟩] [] [⟨"r", 0, 1⟩]).2
        (matchValue [-1, 1] (compute_pool ⟨[], 1/2, 1/2, fun _ _ => 0, "split", "standard"⟩
        [⟨"instance", 0, "a"⟩, ⟨"instance", 1, "b"⟩] [] [⟨"r", 0, 1⟩]
        [⟨"instance", 0, "a"⟩, ⟨"instance", 1, "b"⟩] [] [⟨"r", 0, 1⟩]).2) []).1
      = matchValue ([-1, 1].set 0 0) (compute_pool ⟨[], 1/2, 1/2, fun _ _ => 0, "split", "standard"⟩
        [⟨"instance", 0, "a"⟩, ⟨"instance", 1, "b"⟩] [] [⟨"r", 0, 1⟩]
        [⟨"instance", 0, "a"⟩, ⟨"instance", 1, "b"⟩] [] [⟨"r", 0, 1⟩]).2
        - matchValue [-1, 1] (compute_pool ⟨[], 1/2, 1/2, fun _ _ => 0, "split", "standard"⟩
        [⟨"instance", 0, "a"⟩, ⟨"instance", 1, "b"⟩] [] [⟨"r", 0, 1⟩]
        [⟨"instance", 0, "a"⟩, ⟨"instance", 1, "b"⟩] [] [⟨"r", 0, 1⟩]).2)
    ∧ ((swap_gain [-1, 1] 0 (mapGetD [-1, 1] 0) 1 (mapGetD [-1, 1] 1)
        (compute_pool ⟨[], 1/2, 1/2, fun _ _ => 0, "split", "standard"⟩
        [⟨"instance", 0, "a"⟩, ⟨"instance", 1, "b"⟩] [] [⟨"r", 0, 1⟩]
        [⟨"instance", 0, "a"⟩, ⟨"instance", 1, "b"⟩] [] [⟨"r", 0, 1⟩]).2
        (matchValue [-1, 1] (compute_pool ⟨[], 1/2, 1/2, fun _ _ => 0, "split", "standard"⟩
        [⟨"instance", 0, "a"⟩, ⟨"instance", 1, "b"⟩] [] [⟨"r", 0, 1⟩]
        [⟨"instance", 0, "a"⟩, ⟨"instance", 1, "b"⟩] [] [⟨"r", 0, 1⟩]).2) []).1
      = matchValue (([-1, 1].set 0 (mapGetD [-1, 1] 1)).set 1 (mapGetD [-1, 1] 0))
          (compute_pool ⟨[], 1/2, 1/2, fun _ _ => 0, "split", "standard"⟩
        [⟨"instance", 0, "a"⟩, ⟨"instance", 1, "b"⟩] [] [⟨"r", 0, 1⟩]
        [⟨"instance", 0, "a"⟩, ⟨"instance", 1, "b"⟩] [] [⟨"r", 0, 1⟩]).2
        - matchValue [-1, 1] (compute_pool ⟨[], 1/2, 1/2, fun _ _ => 0, "split", "standard"⟩
        [⟨"instance", 0, "a"⟩, ⟨"instance", 1, "b"⟩] [] [⟨"r", 0, 1⟩]
        [⟨"instance", 0, "a"⟩, ⟨"instance", 1, "b"⟩] [] [⟨"r", 0, 1⟩]).2) := by
  have h := C1_incremental_gains ⟨[], 1/2, 1/2, fun _ _ => 0, "split", "standard"⟩
    [⟨"instance", 0, "a"⟩, ⟨"instance", 1, "b"⟩] [] [⟨"r", 0, 1⟩]
    [⟨"instance", 0, "a"⟩, ⟨"instance", 1, "b"⟩] [] [⟨"r", 0, 1⟩]
    (by decide) (by decide) (by decide) (by decide) (by decide) (by decide)
    _ rfl [-1, 1] _ [] (by intro m v hv; simp [alookup] at hv) rfl
    (by
      intro a ha
      have ha2 : a < 2 := by simpa using ha
      interval_cases a <;> decide)
    (by
      intro a b ha hb h1 h2
      have ha2 : a < 2 := by simpa using ha
      have hb2 : b < 2 := by simpa using hb
      interval_cases a <;> interval_cases b <;> revert h1 h2 <;> decide)
  exact ⟨(h.1 0 0 (by norm_num) (by decide)).1, (h.2 0 1 (by norm_num) (by norm_num)).1⟩

/-- C2: for a weight dictionary produced by `compute_pool` and a consistent
memo, `compute_match` returns the specification score — the sum over every
mapped `i` of the self score stored under key `-1` of `W[(i, M[i])]` (`0` when
the pair is absent), plus the relation count between every unordered pair of
mapped nodes counted exactly once — stores it in the memo under the mapping,
preserves memo consistency, and a second call with the same mapping returns
the memoized value with the memo unchanged. -/
theorem C2_compute_match_spec
    (cfg : PoolCfg) (inst1 attr1 : List STriple) (rel1 : List RTriple)
    (inst2 attr2 : List STriple) (rel2 : List RTriple)
    (hb1 : ∀ t ∈ inst1, 0 ≤ t.node) (hb2 : ∀ t ∈ inst2, 0 ≤ t.node)
    (hb3 : ∀ t ∈ attr1, 0 ≤ t.node) (hb4 : ∀ t ∈ attr2, 0 ≤ t.node)
    (hb5 : ∀ t ∈ rel1, 0 ≤ t.src ∧ 0 ≤ t.tgt)
    (hb6 : ∀ t ∈ rel2, 0 ≤ t.src ∧ 0 ≤ t.tgt)
    (W : WDict) (hW : W = (compute_pool cfg inst1 attr1 rel1 inst2 attr2 rel2).2)
    (memo : Memo) (hmemo : MemoOK W memo) (M : List ℤ) :
    (compute_match M W memo).1 = specMatch M W
    ∧ alookup (compute_match M W memo).2 M = some (specMatch M W)
    ∧ MemoOK W (compute_match M W memo).2
    ∧ compute_match M W ((compute_match M W memo).2)
        = (specMatch M W, (compute_match M W memo).2) := by
  have hWF : WF W := by
    rw [hW, compute_pool_eq]
    exact WF_poolState cfg inst1 attr1 rel1 inst2 attr2 rel2 hb1 hb2 hb3 hb4 hb5 hb6
  cases hm : alookup memo M with
  | some v =>
    have hv := hmemo _ _ hm
    have hcm : compute_match M W memo = (v, memo) := by
      unfold compute_match
      rw [hm]
    rw [hcm]
    refine ⟨hv, ?_, hmemo, ?_⟩
    · show alookup memo M = some (specMatch M W)
      rw [hm, hv]
    · show compute_match M W memo = (specMatch M W, memo)
      rw [hcm, hv]
  | none =>
    have hcm : compute_match M W memo
        = (matchValue M W, (M, matchValue M W) :: memo) := by
      unfold compute_match
      rw [hm]
    have hmv : matchValue M W = specMatch M W := matchValue_eq_specMatch hWF M
    have hlook : alookup ((M, matchValue M W) :: memo) M
        = some (matchValue M W) := by
      simp [alookup]
    have hmemo2 : MemoOK W ((M, matchValue M W) :: memo) := by
      intro m w hmw
      simp only [alookup] at hmw
      by_cases hk : M = m
      · rw [if_pos hk] at hmw
        have hwv : w = matchValue M W := (Option.some.injEq _ _ ▸ hmw).symm
        rw [hwv, hmv, ← hk]
      · rw [if_neg hk] at hmw
        exact hmemo m w hmw
    rw [hcm]
    refine ⟨hmv, ?_, hmemo2, ?_⟩
    · show alookup ((M, matchValue M W) :: memo) M = some (specMatch M W)
      rw [hlook, hmv]
    · show compute_match M W ((M, matchValue M W) :: memo)
          = (specMatch M W, (M, matchValue M W) :: memo)
      have hcm2 : compute_match M W ((M, matchValue M W) :: memo)
          = (matchValue M W, (M, matchValue M W) :: memo) := by
        unfold compute_match
        rw [hlook]
      rw [hcm2, hmv]

/-- Witness for C2: the two-node pool at the full mapping `[0, 1]` with an
empty memo. -/
theorem C2_witness :
    (compute_match [0, 1] (compute_pool ⟨[], 1/2, 1/2, fun _ _ => 0, "split", "standard"⟩
        [⟨"instance", 0, "a"⟩, ⟨"instance", 1, "b"⟩] [] [⟨"r", 0, 1⟩]
        [⟨"instance", 0, "a"⟩, ⟨"instance", 1, "b"⟩] [] [⟨"r", 0, 1⟩]).2 []).1
      = specMatch [0, 1] (compute_pool ⟨[], 1/2, 1/2, fun _ _ => 0, "split", "standard"⟩
        [⟨"instance", 0, "a"⟩, ⟨"instance", 1, "b"⟩] [] [⟨"r", 0, 1⟩]
        [⟨"instance", 0, "a"⟩, ⟨"instance", 1, "b"⟩] [] [⟨"r", 0, 1⟩]).2
    ∧ alookup (compute_match [0, 1] (compute_pool ⟨[], 1/2, 1/2, fun _ _ => 0, "split", "standard"⟩
        [⟨"instance", 0, "a"⟩, ⟨"instance", 1, "b"⟩] [] [⟨"r", 0, 1⟩]
        [⟨"instance", 0, "a"⟩, ⟨"instance", 1, "b"⟩] [] [⟨"r", 0, 1⟩]).2 []).2 [0, 1]
      = some (specMatch [0, 1] (compute_pool ⟨[], 1/2, 1/2, fun _ _ => 0, "split", "standard"⟩
        [⟨"instance", 0, "a"⟩, ⟨"instance", 1, "b"⟩] [] [⟨"r", 0, 1⟩]
        [⟨"instance", 0, "a"⟩, ⟨"instance", 1, "b"⟩] [] [⟨"r", 0, 1⟩]).2) := by
  have h := C2_compute_match_spec ⟨[], 1/2, 1/2, fun _ _ => 0, "split", "standard"⟩
    [⟨"instance", 0, "a"⟩, ⟨"instance", 1, "b"⟩] [] [⟨"r", 0, 1⟩]
    [⟨"instance", 0, "a"⟩, ⟨"instance", 1, "b"⟩] [] [⟨"r", 0, 1⟩]
    (by decide) (by decide) (by decide) (by decide) (by decide) (by decide)
    _ rfl [] (by intro m v hv; simp [alookup] at hv) [0, 1]
  exact ⟨h.1, h.2.1⟩

set_option maxRecDepth 100000 in
/-- C8: comparing a graph against itself does NOT always yield a match count
equal to its number of triples and an F-score of `1.0`.  The similarity cache
keys two concepts by the string `a + "_" + b`, so labels containing
underscores collide: on the three-node graph with concepts `x_x_x`, `x`,
`x_x` (dense identifiers `0`, `1`, `2`, with a `top` attribute), the pair
`(x_x_x, x)` is cached first under the key `x_x_x_x`, which is then hit for
the identity pair `(x_x, x_x)`, zeroing its self score.  The pipeline returns
a best match of `3` although the graph has `4` triples, so the F-score is
`3/4`, not `1`. -/
theorem C8_identity_cache_collision :
    get_best_match ⟨[], 1/2, 1/2, fun _ _ => 0, "split", "standard"⟩
        [⟨"instance", 0, "x_x_x"⟩, ⟨"instance", 1, "x"⟩, ⟨"instance", 2, "x_x"⟩]
        [⟨"top", 0, "x_x_x"⟩] []
        [⟨"instance", 0, "x_x_x"⟩, ⟨"instance", 1, "x"⟩, ⟨"instance", 2, "x_x"⟩]
        [⟨"top", 0, "x_x_x"⟩] [] [] [[], [], [], []] 10
      = Except.ok ([0, 1, 2], 3)
    ∧ ([(⟨"instance", 0, "x_x_x"⟩ : STriple), ⟨"instance", 1, "x"⟩,
          ⟨"instance", 2, "x_x"⟩].length
        + [(⟨"top", 0, "x_x_x"⟩ : STriple)].length
        + ([] : List RTriple).length = 4)
    ∧ compute_f 3 4 4 ≠ (1, 1, 1) := by
  refine ⟨by with_unfolding_all decide, by decide, by with_unfolding_all decide⟩

end S2match
